import Mathlib

set_option maxHeartbeats 1000000

/- Verification development for the notehub sandboxed shell (src/cli.py).

   The shell is embedded shallowly:
   * file contents are lists of characters; Python substring operations
     (`pat in s`, `s.replace(a, b, 1)`, `s.rstrip()`, `f.readlines()`) are
     modelled as executable functions on `List Char`;
   * filesystem paths are lists of components; `os.path.normpath` /
     `os.path.join` become component-list operations, and the
     `str.startswith` containment check of `Shell._resolve_path` is modelled
     on the rendered character list, preserving its string-prefix semantics;
   * the filesystem is a finite map from absolute paths to contents plus a
     set of directories, with `open`/`os.remove`/`shutil.rmtree`/`os.makedirs`
     modelled as total functions returning `Except` where Python raises;
   * each `Shell._<cmd>` handler becomes a pure function from shell state,
     filesystem and argument list to its output string and updated
     filesystem/state, and `Shell.run_command` dispatches over the token
     list produced by the tokenizer (`shlex.split`, falling back to
     whitespace splitting, neither of which touches state or filesystem).
-/

/-! ## Character-list utilities: Python substring operations -/

/-- Python `pat in s` (substring containment test). -/
def containsSub (pat : List Char) : List Char → Bool
  | [] => pat.isPrefixOf []
  | c :: cs => pat.isPrefixOf (c :: cs) || containsSub pat cs

/-- Python `s.replace(pat, rep, 1)`: replace only the first occurrence. -/
def replaceFirst (pat rep : List Char) : List Char → List Char
  | [] => []
  | c :: cs =>
    if pat.isPrefixOf (c :: cs) then rep ++ (c :: cs).drop pat.length
    else c :: replaceFirst pat rep cs

/-- Number of (possibly overlapping) occurrences of `pat`, counted by
starting position, as a reference for the notion "contains exactly one". -/
def countSub (pat : List Char) : List Char → Nat
  | [] => if pat.isPrefixOf [] then 1 else 0
  | c :: cs => (if pat.isPrefixOf (c :: cs) then 1 else 0) + countSub pat cs

theorem isPrefixOf_iff {α : Type} [DecidableEq α] (p l : List α) :
    p.isPrefixOf l = true ↔ ∃ t, l = p ++ t := by
  induction p generalizing l with
  | nil => simp [List.isPrefixOf]
  | cons a as ih =>
    cases l with
    | nil => simp [List.isPrefixOf]
    | cons b bs =>
      simp only [List.isPrefixOf, Bool.and_eq_true, beq_iff_eq, ih,
        List.cons_append, List.cons.injEq]
      constructor
      · rintro ⟨h1, t, h2⟩; exact ⟨t, h1.symm, h2⟩
      · rintro ⟨t, h1, h2⟩; exact ⟨h1.symm, t, h2⟩

theorem containsSub_iff (p l : List Char) :
    containsSub p l = true ↔ ∃ a b, l = a ++ p ++ b := by
  induction l with
  | nil =>
    simp only [containsSub, isPrefixOf_iff]
    constructor
    · rintro ⟨t, ht⟩
      exact ⟨[], t, by simpa using ht⟩
    · rintro ⟨a, b, h⟩
      exact ⟨b, by
        rcases List.append_eq_nil.mp h.symm with ⟨h1, h2⟩
        rcases List.append_eq_nil.mp h1 with ⟨h3, h4⟩
        simp [h2, h4]⟩
  | cons c cs ih =>
    simp only [containsSub, Bool.or_eq_true, isPrefixOf_iff, ih]
    constructor
    · rintro (⟨t, ht⟩ | ⟨a, b, h⟩)
      · exact ⟨[], t, by simpa using ht⟩
      · exact ⟨c :: a, b, by simp [h]⟩
    · rintro ⟨a, b, h⟩
      cases a with
      | nil => exact Or.inl ⟨b, by simpa using h⟩
      | cons a0 as =>
        right
        simp only [List.cons_append, List.append_assoc, List.cons.injEq] at h
        exact ⟨as, b, by simp [h.2]⟩

theorem replaceFirst_of_not_contains {p r l : List Char}
    (h : containsSub p l = false) : replaceFirst p r l = l := by
  induction l with
  | nil => rfl
  | cons c cs ih =>
    simp only [containsSub, Bool.or_eq_false_iff] at h
    simp [replaceFirst, h.1, ih h.2]

/-- Decomposition of a first-occurrence replacement: the input splits as
`a ++ p ++ b` where `a` is the shortest such prefix, and the result is
`a ++ r ++ b`. -/
theorem replaceFirst_spec {p : List Char} (r : List Char) {l : List Char}
    (hp : p ≠ []) (h : containsSub p l = true) :
    ∃ a b, l = a ++ p ++ b ∧ replaceFirst p r l = a ++ r ++ b ∧
      ∀ a2 b2, l = a2 ++ p ++ b2 → a.length ≤ a2.length := by
  induction l with
  | nil =>
    exfalso
    rcases (containsSub_iff p []).mp h with ⟨a, b, hab⟩
    rcases List.append_eq_nil.mp hab.symm with ⟨h1, _⟩
    rcases List.append_eq_nil.mp h1 with ⟨_, h4⟩
    exact hp h4
  | cons c cs ih =>
    by_cases hpre : p.isPrefixOf (c :: cs) = true
    · rcases (isPrefixOf_iff p (c :: cs)).mp hpre with ⟨t, ht⟩
      refine ⟨[], t, by simpa using ht, ?_, fun a2 b2 _ => Nat.zero_le _⟩
      simp [replaceFirst, hpre, ht, List.drop_left]
    · have hcs : containsSub p cs = true := by
        simp only [containsSub, Bool.or_eq_true] at h
        rcases h with h | h
        · exact absurd h hpre
        · exact h
      rcases ih hcs with ⟨a, b, hab, hrep, hmin⟩
      refine ⟨c :: a, b, by simp [hab], ?_, ?_⟩
      · simp [replaceFirst, hpre, hrep]
      · rintro a2 b2 h2
        cases a2 with
        | nil =>
          exfalso
          apply hpre
          exact (isPrefixOf_iff p (c :: cs)).mpr ⟨b2, by simpa using h2⟩
        | cons a0 as =>
          simp only [List.cons_append, List.append_assoc, List.cons.injEq] at h2
          have h3 : cs = as ++ p ++ b2 := by simp [h2.2]
          simpa using Nat.succ_le_succ (hmin as b2 h3)

theorem drop_append_le {α : Type} {l1 l2 : List α} {n : Nat} (h : n ≤ l1.length) :
    (l1 ++ l2).drop n = l1.drop n ++ l2 := by
  induction l1 generalizing n with
  | nil =>
    have : n = 0 := Nat.le_zero.mp h
    simp [this]
  | cons c cs ih =>
    cases n with
    | zero => simp
    | succ m => simpa using ih (Nat.le_of_succ_le_succ h)

theorem isPrefixOf_append_right {α : Type} [DecidableEq α] {p q : List α}
    (t : List α) (h : p.isPrefixOf q = true) : p.isPrefixOf (q ++ t) = true := by
  rcases (isPrefixOf_iff p q).mp h with ⟨w, hw⟩
  exact (isPrefixOf_iff p (q ++ t)).mpr ⟨w ++ t, by simp [hw]⟩

/-- A pattern that is a prefix of `s ++ t` is a prefix of `s`, or extends `s`. -/
theorem isPrefixOf_append_cases {α : Type} [DecidableEq α] {p s t : List α}
    (h : p.isPrefixOf (s ++ t) = true) :
    p.isPrefixOf s = true ∨ ∃ x, p = s ++ x ∧ x.isPrefixOf t = true := by
  rcases (isPrefixOf_iff p (s ++ t)).mp h with ⟨w, hw⟩
  rcases List.append_eq_append_iff.mp hw with ⟨x, hx1, hx2⟩ | ⟨x, hx1, hx2⟩
  · exact Or.inr ⟨x, hx1, (isPrefixOf_iff x t).mpr ⟨w, hx2⟩⟩
  · exact Or.inl ((isPrefixOf_iff p s).mpr ⟨x, hx1⟩)

theorem containsSub_append_left {p a : List Char} (b : List Char)
    (h : containsSub p a = true) : containsSub p (a ++ b) = true := by
  rcases (containsSub_iff p a).mp h with ⟨x, y, hxy⟩
  exact (containsSub_iff p (a ++ b)).mpr ⟨x, y ++ b, by simp [hxy]⟩

theorem containsSub_append_right {p b : List Char} (a : List Char)
    (h : containsSub p b = true) : containsSub p (a ++ b) = true := by
  rcases (containsSub_iff p b).mp h with ⟨x, y, hxy⟩
  exact (containsSub_iff p (a ++ b)).mpr ⟨a ++ x, y, by simp [hxy]⟩

theorem not_containsSub_of_append {p a b : List Char}
    (h : containsSub p (a ++ b) = false) : containsSub p a = false := by
  by_contra hc
  rw [containsSub_append_left b (Bool.of_not_eq_false hc)] at h
  cases h

theorem containsSub_middle (p a b : List Char) :
    containsSub p (a ++ p ++ b) = true :=
  (containsSub_iff p (a ++ p ++ b)).mpr ⟨a, b, rfl⟩

theorem length_replaceFirst {p r : List Char} (l : List Char)
    (hp : p ≠ []) (hlen : r.length = p.length) :
    (replaceFirst p r l).length = l.length := by
  by_cases h : containsSub p l = true
  · rcases replaceFirst_spec r hp h with ⟨a, b, hab, hrep, _⟩
    rw [hrep, hab]
    simp [hlen]
  · rw [replaceFirst_of_not_contains (Bool.of_not_eq_true h)]

theorem mem_replaceFirst {p r l : List Char} {x : Char}
    (hp : p ≠ []) (h : x ∈ replaceFirst p r l) : x ∈ l ∨ x ∈ r := by
  by_cases hc : containsSub p l = true
  · rcases replaceFirst_spec r hp hc with ⟨a, b, hab, hrep, _⟩
    rw [hrep] at h
    simp only [List.mem_append] at h
    rcases h with (h | h) | h
    · exact Or.inl (by simp [hab, h])
    · exact Or.inr h
    · exact Or.inl (by simp [hab, h])
  · rw [replaceFirst_of_not_contains (Bool.of_not_eq_true hc)] at h
    exact Or.inl h

/-- A newline-free pattern is a prefix of `q ++ ['\n']` iff it is a prefix
of `q`. -/
theorem isPrefixOf_concat_nl {p q : List Char} (hnl : '\n' ∉ p) :
    p.isPrefixOf (q ++ [ '\n' ]) = p.isPrefixOf q := by
  by_cases h : p.isPrefixOf q = true
  · rw [h, isPrefixOf_append_right _ h]
  · rw [Bool.of_not_eq_true h]
    by_contra hc
    have hc2 : p.isPrefixOf (q ++ [ '\n' ]) = true := Bool.of_not_eq_false hc
    rcases isPrefixOf_append_cases hc2 with h1 | ⟨x, hx1, hx2⟩
    · rw [h1] at h; exact h rfl
    · cases x with
      | nil => rw [hx1] at h; simp [isPrefixOf_append_right, isPrefixOf_iff] at h
      | cons c cs =>
        rcases (isPrefixOf_iff _ _).mp hx2 with ⟨w, hw⟩
        have hcn : c = '\n' ∧ cs ++ w = [] := by
          have := hw
          simp only [List.cons_append, List.cons.injEq] at this
          exact ⟨this.1.symm, this.2.symm⟩
        apply hnl
        rw [hx1, hcn.1]
        simp

/-- Replacing a newline-free pattern in `q ++ ['\n']` only touches `q`. -/
theorem replaceFirst_concat_nl {p r q : List Char} (hp : p ≠ []) (hnl : '\n' ∉ p) :
    replaceFirst p r (q ++ [ '\n' ]) = replaceFirst p r q ++ [ '\n' ] := by
  induction q with
  | nil =>
    have hpre : p.isPrefixOf [ '\n' ] = false := by
      rw [show ([ '\n' ] : List Char) = [] ++ [ '\n' ] from rfl,
        isPrefixOf_concat_nl hnl]
      cases p with
      | nil => exact absurd rfl hp
      | cons c cs => rfl
    simp [replaceFirst, hpre]
  | cons c q ih =>
    by_cases hpre : p.isPrefixOf (c :: q) = true
    · have hlen : p.length ≤ (c :: q).length := by
        rcases (isPrefixOf_iff _ _).mp hpre with ⟨w, hw⟩
        simp [hw]
      have hpre2 : p.isPrefixOf ((c :: q) ++ [ '\n' ]) = true := by
        rw [isPrefixOf_concat_nl hnl]
        exact hpre
      have hdrop : ((c :: q) ++ [ '\n' ]).drop p.length
          = (c :: q).drop p.length ++ [ '\n' ] := drop_append_le hlen
      simp only [List.cons_append] at hpre2 hdrop ⊢
      simp [replaceFirst, hpre2, hpre, hdrop]
    · have hpre2 : p.isPrefixOf ((c :: q) ++ [ '\n' ]) = false := by
        rw [isPrefixOf_concat_nl hnl]
        exact Bool.of_not_eq_true hpre
      simp only [List.cons_append] at hpre2 ⊢
      simp [replaceFirst, hpre2, Bool.of_not_eq_true hpre, ih]

/-! ## Python `str.rstrip` -/

/-- Python whitespace characters recognised by `str.rstrip()` (ASCII part;
note contents produced by the shell contain no other whitespace). -/
def isPyWs (c : Char) : Bool :=
  c = ' ' || c = '\t' || c = '\n' || c = '\r' || c = '\x0b' || c = '\x0c'

/-- Python `s.rstrip()`. -/
def rstrip (s : List Char) : List Char := (s.reverse.dropWhile isPyWs).reverse

theorem rstrip_append (s : List Char) : ∃ t, s = rstrip s ++ t := by
  rcases (List.dropWhile_suffix isPyWs (l := s.reverse)) with ⟨t, ht⟩
  refine ⟨t.reverse, ?_⟩
  have : s.reverse.reverse = (t ++ s.reverse.dropWhile isPyWs).reverse := by rw [ht]
  simpa [rstrip] using this

theorem not_containsSub_rstrip {p s : List Char}
    (h : containsSub p s = false) : containsSub p (rstrip s) = false := by
  rcases rstrip_append s with ⟨t, ht⟩
  exact not_containsSub_of_append (ht ▸ h)

/-! ## Python `f.readlines()` / `f.writelines` -/

def readlinesAux (acc : List Char) : List Char → List (List Char)
  | [] => if acc = [] then [] else [acc.reverse]
  | c :: cs =>
    if c = '\n' then (acc.reverse ++ [ '\n' ]) :: readlinesAux [] cs
    else readlinesAux (c :: acc) cs

/-- Python `f.readlines()`: split into lines, keeping the terminators. -/
def readlines (s : List Char) : List (List Char) := readlinesAux [] s

/-- Python `f.writelines(lines)` writes the plain concatenation. -/
def joinLines : List (List Char) → List Char
  | [] => []
  | l :: ls => l ++ joinLines ls

theorem joinLines_readlinesAux (s : List Char) :
    ∀ acc, joinLines (readlinesAux acc s) = acc.reverse ++ s := by
  induction s with
  | nil =>
    intro acc
    by_cases h : acc = []
    · simp [readlinesAux, h, joinLines]
    · simp [readlinesAux, h, joinLines]
  | cons c cs ih =>
    intro acc
    by_cases h : c = '\n'
    · simp [readlinesAux, h, joinLines, ih]
    · simpa [readlinesAux, h, joinLines] using ih (c :: acc)

theorem joinLines_readlines (s : List Char) : joinLines (readlines s) = s := by
  simpa using joinLines_readlinesAux s []

/-- A well-formed stored line: nonempty, with a newline at most as its final
character. -/
def lineWF (p : List Char) : Bool := !(p.isEmpty) && !(p.dropLast.contains '\n')

/-- Whether a stored line ends with a newline. -/
def endsNL (p : List Char) : Bool := p.getLast? == some '\n'

/-- Well-formed line lists, as produced by `readlines`: each line is
well-formed and every line except possibly the last ends with a newline. -/
def wfLines : List (List Char) → Bool
  | [] => true
  | p :: rest => lineWF p && (rest.isEmpty || endsNL p) && wfLines rest

theorem mem_of_mem_dropLast {α : Type} {x : α} {l : List α}
    (h : x ∈ l.dropLast) : x ∈ l := by
  induction l with
  | nil => simp at h
  | cons c cs ih =>
    cases cs with
    | nil => simp at h
    | cons d ds =>
      rcases List.mem_cons.mp (by simpa [List.dropLast] using h) with h1 | h1
      · simp [h1]
      · exact List.mem_cons.mpr (Or.inr (ih (by simpa [List.dropLast] using h1)))

theorem contains_eq_decide_mem {α : Type} [BEq α] [LawfulBEq α]
    (l : List α) (c : α) : l.contains c = decide (c ∈ l) := by
  simp [List.contains]

theorem wf_readlinesAux (s : List Char) :
    ∀ acc, '\n' ∉ acc → wfLines (readlinesAux acc s) = true := by
  induction s with
  | nil =>
    intro acc hacc
    by_cases h : acc = []
    · simp [readlinesAux, h, wfLines]
    · have h1 : acc.reverse.isEmpty = false := by simp [List.isEmpty_iff, h]
      have h2 : acc.reverse.dropLast.contains '\n' = false := by
        rw [contains_eq_decide_mem]
        simp only [decide_eq_false_iff_not]
        intro hm
        exact hacc (by simpa using mem_of_mem_dropLast hm)
      simp only [readlinesAux, if_neg h]
      simp only [wfLines, lineWF]
      rw [h1, h2]
      simp
  | cons c cs ih =>
    intro acc hacc
    by_cases h : c = '\n'
    · subst h
      have h1 : (acc.reverse ++ [ '\n' ] : List Char).isEmpty = false := by
        simp [List.isEmpty_iff]
      have h2 : (acc.reverse ++ [ '\n' ] : List Char).dropLast.contains '\n'
          = false := by
        rw [List.dropLast_concat, contains_eq_decide_mem]
        simp only [decide_eq_false_iff_not]
        intro hm
        exact hacc (by simpa using hm)
      have h3 : endsNL (acc.reverse ++ [ '\n' ]) = true := by
        simp [endsNL, List.getLast?_concat]
      simp only [readlinesAux, if_pos rfl]
      simp only [wfLines, lineWF]
      rw [h1, h2, h3, ih [] (by simp)]
      simp
    · simp only [readlinesAux, if_neg h]
      exact ih (c :: acc) (by
        intro hm
        rcases List.mem_cons.mp hm with h1 | h1
        · exact h h1.symm
        · exact hacc h1)

theorem wf_readlines (s : List Char) : wfLines (readlines s) = true :=
  wf_readlinesAux s [] (by simp)

theorem readlinesAux_append_nl {q : List Char} (hq : '\n' ∉ q) (t : List Char) :
    ∀ acc, readlinesAux acc (q ++ '\n' :: t)
      = (acc.reverse ++ q ++ [ '\n' ]) :: readlinesAux [] t := by
  induction q with
  | nil => intro acc; simp [readlinesAux]
  | cons c q ih =>
    intro acc
    have hc : c ≠ '\n' := fun h => hq (by simp [h])
    have hq2 : '\n' ∉ q := fun h => hq (by simp [h])
    rw [List.cons_append, readlinesAux, if_neg (by simpa using hc)]
    rw [ih hq2 (c :: acc)]
    simp

theorem readlinesAux_no_nl {q : List Char} (hq : '\n' ∉ q) (hne : q ≠ []) :
    ∀ acc, readlinesAux acc q = [acc.reverse ++ q] := by
  induction q with
  | nil => exact absurd rfl hne
  | cons c q ih =>
    intro acc
    have hc : c ≠ '\n' := fun h => hq (by simp [h])
    have hq2 : '\n' ∉ q := fun h => hq (by simp [h])
    rw [readlinesAux, if_neg (by simpa using hc)]
    by_cases h : q = []
    · subst h
      simp [readlinesAux]
    · rw [ih hq2 h (c :: acc)]
      simp

theorem endsNL_true_mem {p : List Char} (h : endsNL p = true) : '\n' ∈ p := by
  induction p with
  | nil => simp [endsNL] at h
  | cons c cs ih =>
    cases cs with
    | nil =>
      simp only [endsNL, List.getLast?_singleton, beq_iff_eq, Option.some.injEq] at h
      simp [h]
    | cons d ds =>
      exact List.mem_cons.mpr (Or.inr (ih (by
        simpa [endsNL, List.getLast?] using h)))

theorem lineWF_parts {p : List Char} (hwf : lineWF p = true) :
    p ≠ [] ∧ '\n' ∉ p.dropLast := by
  have h1 : p.isEmpty = false ∧ p.dropLast.contains '\n' = false := by
    simpa [lineWF, Bool.and_eq_true] using hwf
  refine ⟨by simpa [List.isEmpty_iff] using h1.1, ?_⟩
  have hc : decide ('\n' ∈ p.dropLast) = false := by
    rw [← contains_eq_decide_mem]
    exact h1.2
  exact of_decide_eq_false hc

theorem not_nl_mem_of_lineWF {p : List Char} (hwf : lineWF p = true)
    (hend : endsNL p = false) : '\n' ∉ p := by
  obtain ⟨hne, hnl⟩ := lineWF_parts hwf
  intro hm
  have hd := List.dropLast_append_getLast hne
  have hm2 : '\n' ∈ p.dropLast ++ [p.getLast hne] := by
    rw [hd]
    exact hm
  rcases List.mem_append.mp hm2 with h1 | h1
  · exact hnl h1
  · have h3 : p.getLast hne = '\n' := by
      have h4 := h1
      simp only [List.mem_singleton] at h4
      exact h4.symm
    rw [endsNL, List.getLast?_eq_getLast p hne, h3] at hend
    simp at hend

/-- Re-reading a well-formed line list after writing it back gives the same
list (used for consecutive `check` invocations). -/
theorem readlines_joinLines {L : List (List Char)} (h : wfLines L = true) :
    readlines (joinLines L) = L := by
  induction L with
  | nil => simp [joinLines, readlines, readlinesAux]
  | cons p rest ih =>
    simp only [wfLines, Bool.and_eq_true, Bool.or_eq_true, List.isEmpty_iff] at h
    obtain ⟨⟨hwf, hor⟩, hrest⟩ := h
    obtain ⟨hne, hnl⟩ := lineWF_parts hwf
    by_cases hend : endsNL p = true
    · have hlast : p.getLast hne = '\n' := by
        rw [endsNL, List.getLast?_eq_getLast p hne] at hend
        simpa using hend
      have hp : p = p.dropLast ++ '\n' :: [] := by
        rw [← hlast]
        exact (List.dropLast_append_getLast hne).symm
      rw [joinLines, readlines]
      rw [hp, List.append_assoc, List.cons_append, List.nil_append]
      rw [readlinesAux_append_nl hnl _ []]
      rw [← readlines, ih hrest]
      simp [← hp]
    · have hrestnil : rest = [] := by
        rcases hor with h1 | h1
        · exact h1
        · exact absurd h1 hend
      have hnlp : '\n' ∉ p := not_nl_mem_of_lineWF hwf (Bool.of_not_eq_true hend)
      subst hrestnil
      rw [joinLines, joinLines, List.append_nil, readlines]
      rw [readlinesAux_no_nl hnlp hne []]
      simp

/-! ## List.set helpers -/

theorem getD_set_self {α : Type} (L : List α) (i : Nat) (v d : α)
    (h : i < L.length) : (L.set i v).getD i d = v := by
  induction L generalizing i with
  | nil => simp at h
  | cons c cs ih =>
    cases i with
    | zero => rfl
    | succ j => exact ih j (by simpa using h)

theorem getD_set_ne {α : Type} (L : List α) (i j : Nat) (v d : α)
    (h : j ≠ i) : (L.set i v).getD j d = L.getD j d := by
  induction L generalizing i j with
  | nil => simp
  | cons c cs ih =>
    cases i with
    | zero =>
      cases j with
      | zero => exact absurd rfl h
      | succ k => rfl
    | succ m =>
      cases j with
      | zero => rfl
      | succ k => exact ih m k (by omega)

theorem set_getD_self {α : Type} (L : List α) (i : Nat) (d : α)
    (h : i < L.length) : L.set i (L.getD i d) = L := by
  induction L generalizing i with
  | nil => simp at h
  | cons c cs ih =>
    cases i with
    | zero => rfl
    | succ j => simpa using ih j (by simpa using h)

theorem getD_mem {α : Type} (L : List α) (i : Nat) (d : α)
    (h : i < L.length) : L.getD i d ∈ L := by
  induction L generalizing i with
  | nil => simp at h
  | cons c cs ih =>
    cases i with
    | zero => exact List.mem_cons_self c cs
    | succ j => exact List.mem_cons.mpr (Or.inr (ih j (by simpa using h)))

theorem length_set_eq {α : Type} (L : List α) (i : Nat) (v : α) :
    (L.set i v).length = L.length := by simp

theorem isEmpty_set {α : Type} (L : List α) (i : Nat) (v : α) :
    (L.set i v).isEmpty = L.isEmpty := by
  cases L with
  | nil => rfl
  | cons c cs => cases i <;> rfl

theorem lineWF_of_wfLines {L : List (List Char)} (h : wfLines L = true) :
    ∀ p ∈ L, lineWF p = true := by
  induction L with
  | nil => simp
  | cons q rest ih =>
    intro p hp
    simp only [wfLines, Bool.and_eq_true] at h
    rcases List.mem_cons.mp hp with h1 | h1
    · rw [h1]; exact h.1.1
    · exact ih h.2 p h1

theorem wfLines_set {L : List (List Char)} {i : Nat} {v : List Char}
    (h : wfLines L = true) (hv : lineWF v = true)
    (hend : endsNL v = endsNL (L.getD i [])) : wfLines (L.set i v) = true := by
  induction L generalizing i with
  | nil => simp [wfLines]
  | cons p rest ih =>
    simp only [wfLines, Bool.and_eq_true] at h
    obtain ⟨⟨h1, h2⟩, h3⟩ := h
    cases i with
    | zero =>
      have hend0 : endsNL v = endsNL p := by simpa using hend
      simp only [List.set]
      simp [wfLines, hv, h3, hend0 ▸ h2]
    | succ j =>
      have hend1 : endsNL v = endsNL (rest.getD j []) := by simpa using hend
      simp only [List.set]
      simp [wfLines, h1, isEmpty_set, h2, ih h3 hend1]

/-! ## Python `int(...)` -/

/-- Digit-string parser for Python `int`: digits with single underscores
allowed between digits (Python 3.6+). `prevDigit` records whether the
previous character was a digit. -/
def parseDigitsCore (prevDigit : Bool) (acc : Nat) : List Char → Option Nat
  | [] => if prevDigit then some acc else none
  | c :: cs =>
    if c.isDigit then parseDigitsCore true (acc * 10 + (c.toNat - 48)) cs
    else if c = '_' then (if prevDigit then parseDigitsCore false acc cs else none)
    else none

/-- Python `int(arg)` on a string argument: strip surrounding whitespace,
optional sign, then digits (ASCII; CPython additionally accepts Unicode
digits and whitespace, which cannot arrive through the shell tokenizer). -/
def pyInt (s : String) : Option Int :=
  let l := ((s.data.dropWhile isPyWs).reverse.dropWhile isPyWs).reverse
  match l with
  | '+' :: r => (parseDigitsCore false 0 r).map (fun n => (n : Int))
  | '-' :: r => (parseDigitsCore false 0 r).map (fun n => -(n : Int))
  | r => (parseDigitsCore false 0 r).map (fun n => (n : Int))

/-- The list comprehension `[int(arg) for arg in args]`: all-or-nothing. -/
def parseAll : List String → Option (List Int)
  | [] => some []
  | a :: rest =>
    match pyInt a, parseAll rest with
    | some n, some ns => some (n :: ns)
    | _, _ => none

theorem parseAll_eq_none_iff (l : List String) :
    parseAll l = none ↔ ∃ b ∈ l, pyInt b = none := by
  induction l with
  | nil => simp [parseAll]
  | cons a rest ih =>
    cases ha : pyInt a with
    | none =>
      constructor
      · intro _
        exact ⟨a, List.mem_cons_self a rest, ha⟩
      · intro _
        simp only [parseAll, ha]
    | some n =>
      cases hr : parseAll rest with
      | none =>
        constructor
        · intro _
          rcases ih.mp hr with ⟨b, hb1, hb2⟩
          exact ⟨b, List.mem_cons.mpr (Or.inr hb1), hb2⟩
        · intro _
          simp only [parseAll, ha, hr]
      | some ns =>
        constructor
        · intro h
          simp only [parseAll, ha, hr] at h
          exact Option.noConfusion h
        · rintro ⟨b, hb1, hb2⟩
          exfalso
          rcases List.mem_cons.mp hb1 with h1 | h1
          · rw [h1, ha] at hb2
            cases hb2
          · have h2 := ih.mpr ⟨b, h1, hb2⟩
            rw [h2] at hr
            cases hr

/-! ## Path model (`os.path.join` / `os.path.normpath` / `os.path.relpath`) -/

def splitOnSlashAux (acc : List Char) : List Char → List (List Char)
  | [] => [acc.reverse]
  | c :: cs =>
    if c = '/' then acc.reverse :: splitOnSlashAux [] cs
    else splitOnSlashAux (c :: acc) cs

/-- Components contributed by a path string, as seen by `os.path.join`
followed by `os.path.normpath`: split on the separator, dropping empty and
`.` components (`..` components are handled by `pathNorm`). -/
def pySplit (s : String) : List String :=
  ((splitOnSlashAux [] s.data).map (fun l => String.mk l)).filter
    (fun c => c ≠ "" && c ≠ ".")

/-- `os.path.normpath` on an absolute path given as components: `..` is
resolved lexically and never ascends above the filesystem root. -/
def pathNorm (comps : List String) : List String :=
  comps.foldl (fun acc c => if c = ".." then acc.dropLast else acc ++ [c]) []

/-- Character rendering of an absolute path, matching the string on which
Python's `startswith` containment check operates (`"/a/b"`; the degenerate
empty path renders as `""` where Python prints `"/"`, which never changes
the outcome of a `startswith` comparison between two rendered paths). -/
def strOf : List String → List Char
  | [] => []
  | c :: rest => '/' :: c.data ++ strOf rest

def pathStr (p : List String) : String := String.mk (strOf p)

def commonLen : List String → List String → Nat
  | a :: as, b :: bs => if a = b then 1 + commonLen as bs else 0
  | _, _ => 0

/-- `os.path.relpath(path, start)` (lexical form used for display). -/
def relpathStr (p base : List String) : String :=
  let k := commonLen p base
  let comps := List.replicate (base.length - k) ".." ++ p.drop k
  if comps.isEmpty then "." else String.intercalate "/" comps

/-! ## Filesystem model -/

/-- Filesystem: an association list of files (absolute path components ↦
contents) plus the collection of existing directories. Lookups mirror the
`os.path` predicates; mutations mirror `open(..., "w")`, `os.remove`,
`shutil.rmtree` and `os.makedirs`. -/
structure FS where
  files : List (List String × List Char)
  dirs : List (List String)
deriving DecidableEq

def FS.readFile (fs : FS) (p : List String) : Option (List Char) :=
  (fs.files.find? (fun e => e.1 == p)).map (fun e => e.2)

def FS.isFile (fs : FS) (p : List String) : Bool := (fs.readFile p).isSome

def FS.isDir (fs : FS) (p : List String) : Bool := fs.dirs.contains p

/-- `os.path.exists`. -/
def FS.existsPath (fs : FS) (p : List String) : Bool := fs.isFile p || fs.isDir p

def FS.writeFile (fs : FS) (p : List String) (c : List Char) : FS :=
  { fs with files := (p, c) :: fs.files.filter (fun e => !(e.1 == p)) }

def isADirectoryMsg (p : List String) : String :=
  "[Errno 21] Is a directory: '" ++ pathStr p ++ "'"

def noSuchFileMsg (p : List String) : String :=
  "[Errno 2] No such file or directory: '" ++ pathStr p ++ "'"

/-- Python `open(path, "w")` and a full write: fails like CPython when the
target is a directory or the parent directory is missing. -/
def FS.openWrite (fs : FS) (p : List String) (c : List Char) : Except String FS :=
  if fs.isDir p then .error (isADirectoryMsg p)
  else if fs.isFile p || fs.isDir p.dropLast then .ok (fs.writeFile p c)
  else .error (noSuchFileMsg p)

/-- `os.remove` on an existing file. -/
def FS.removeFile (fs : FS) (p : List String) : FS :=
  { fs with files := fs.files.filter (fun e => !(e.1 == p)) }

/-- `shutil.rmtree`: delete the directory and everything below it. -/
def FS.rmtree (fs : FS) (p : List String) : FS :=
  { files := fs.files.filter (fun e => !(p.isPrefixOf e.1)),
    dirs := fs.dirs.filter (fun d => !(p.isPrefixOf d)) }

/-- `os.makedirs(p, exist_ok=True)`: create the directory and all missing
ancestors. -/
def FS.mkdirs (fs : FS) (p : List String) : FS :=
  { fs with dirs :=
      (p.inits.filter (fun q => !(q.isEmpty) && !(fs.dirs.contains q))) ++ fs.dirs }

/-- `os.listdir`: names of the immediate children of `p`. -/
def FS.listdir (fs : FS) (p : List String) : List String :=
  ((fs.files.filterMap (fun e =>
      if e.1.dropLast = p then e.1.getLast? else none)) ++
    (fs.dirs.filterMap (fun d =>
      if d ≠ [] ∧ d.dropLast = p then d.getLast? else none))).dedup

/-! ## Shell state (`class Shell`) -/

/-- Session state of `Shell.__init__`: sandbox root (absolute path of the
`notes` directory), current working directory, prompt identity, and the
`_running` flag set by the `exit` handler. -/
structure Shell where
  sandbox_root : List String
  cwd : List String
  user : String
  host : String
  running : Bool
deriving DecidableEq

/-- The ValueError message raised by `Shell._resolve_path` (the
SandboxViolation of the specification). -/
def sandboxViolationMsg : String :=
  "Zugriff außerhalb der notes/ Umgebung nicht erlaubt"

/-- The target computed by `Shell._resolve_path` before its containment
check: a path starting with the separator is taken relative to the sandbox
root (after `lstrip("/")`), any other relative to the current directory;
the joined path is then normalized. -/
def resolveTarget (sh : Shell) (userPath : String) : List String :=
  if userPath.data.head? = some '/' then
    pathNorm (sh.sandbox_root ++
      pySplit (String.mk (userPath.data.dropWhile (fun c => c = '/'))))
  else
    pathNorm (sh.cwd ++ pySplit userPath)

/-- `Shell._resolve_path`: the containment check is Python's string
`startswith` of the rendered target against the rendered sandbox root. -/
def resolvePath (sh : Shell) (userPath : String) : Except String (List String) :=
  if (strOf sh.sandbox_root).isPrefixOf (strOf (resolveTarget sh userPath)) then
    .ok (resolveTarget sh userPath)
  else .error sandboxViolationMsg

/-- `os.path.join(self.cwd, f"{title}.txt")` as resolved by the OS when the
file is opened (lexical `..` resolution; no sandbox check is involved). -/
def notePath (sh : Shell) (title : String) : List String :=
  pathNorm (sh.cwd ++ pySplit (title ++ ".txt"))

/-- `Shell._get_relative_path`. -/
def getRelativePath (sh : Shell) (p : List String) : String :=
  if p = sh.sandbox_root then "/" else "/" ++ relpathStr p sh.sandbox_root

/-! ## Todo markers and the per-line toggle of `Shell._check` -/

def uncheckedPat : List Char := [ '[' , ' ' , ']' ]

def checkedPat : List Char := [ '[' , 'x' , ']' ]

def doneMarker : List Char := [ '[' , 'D' , 'O' , 'N' , 'E' , ']' ]

/-- The checkbox toggle applied by `Shell._check` to one line: an unchecked
marker anywhere in the line takes priority, then a checked marker; `none`
when the line has neither. The Bool reports whether the line became
checked. -/
def toggleLine (l : List Char) : Option (List Char × Bool) :=
  if containsSub uncheckedPat l then
    some (replaceFirst uncheckedPat checkedPat l, true)
  else if containsSub checkedPat l then
    some (replaceFirst checkedPat uncheckedPat l, false)
  else none

def outOfRangeMsg (n : Int) (len : Nat) : String :=
  s!"Line {n} out of range (1-{len})"

def checkedMsg (n : Int) : String := s!"Line {n} checked"

def uncheckedMsg (n : Int) : String := s!"Line {n} unchecked"

def notTodoMsg (n : Int) : String :=
  s!"Line {n} is not a todo item (missing [ ] or [x])"

/-- One iteration of the `for line_num in line_numbers` loop of
`Shell._check`, acting on the state (lines, results, modified). -/
def checkStep (st : List (List Char) × List String × Bool) (n : Int) :
    List (List Char) × List String × Bool :=
  if decide (n < 1) || decide (n > (st.1.length : Int)) then
    (st.1, st.2.1 ++ [outOfRangeMsg n st.1.length], st.2.2)
  else
    match toggleLine (st.1.getD (n - 1).toNat []) with
    | some (l2, true) =>
      (st.1.set (n - 1).toNat l2, st.2.1 ++ [checkedMsg n], true)
    | some (l2, false) =>
      (st.1.set (n - 1).toNat l2, st.2.1 ++ [uncheckedMsg n], true)
    | none => (st.1, st.2.1 ++ [notTodoMsg n], st.2.2)

/-! ## Command handlers (`Shell._<name>` methods) -/

def charListLe : List Char → List Char → Bool
  | [], _ => true
  | _ :: _, [] => false
  | a :: as, b :: bs => if a = b then charListLe as bs else decide (a < b)

/-- Python `sorted` on strings (code-point lexicographic order). -/
def sortStrings (l : List String) : List String :=
  l.mergeSort (fun a b => charListLe a.data b.data)

/-- Directory listing body of `Shell._ls`: sorted entries, directories
marked with a trailing slash. -/
def renderEntries (fs : FS) (p : List String) : String :=
  let entries := fs.listdir p
  if entries.isEmpty then ""
  else
    String.intercalate "\n"
      ((sortStrings entries).map (fun e =>
        if fs.isDir (p ++ [e]) then e ++ "/" else e))

/-- `Shell._ls`. With no argument and a current directory that no longer
exists, the error branch evaluates `args[0]` on the empty argument list;
the resulting IndexError is caught and its message returned. -/
def lsCmd (sh : Shell) (fs : FS) (args : List String) : String :=
  match args with
  | [] =>
    if !(fs.isDir sh.cwd) then "list index out of range"
    else renderEntries fs sh.cwd
  | a :: _ =>
    match resolvePath sh a with
    | .error e => e
    | .ok t =>
      if !(fs.isDir t) then s!"'{a}' is not a directory"
      else renderEntries fs t

/-- `Shell._pwd`. -/
def pwdCmd (sh : Shell) : String := getRelativePath sh sh.cwd

/-- `Shell._cd`: the only handler that mutates the session. -/
def cdCmd (sh : Shell) (fs : FS) (args : List String) : String × Shell :=
  match args with
  | [] => ("", { sh with cwd := sh.sandbox_root })
  | a :: _ =>
    if a = "~" then ("", { sh with cwd := sh.sandbox_root })
    else
      match resolvePath sh a with
      | .error e => (e, sh)
      | .ok t =>
        if !(fs.isDir t) then (s!"'{a}' is not a directory", sh)
        else ("", { sh with cwd := t })

/-- `Shell._add`: the title is joined to the current directory without any
sandbox check; an existing note is silently overwritten. -/
def addCmd (sh : Shell) (fs : FS) (args : List String) : String × FS :=
  match args with
  | [] => ("Usage: add <title> <content>", fs)
  | [_] => ("Usage: add <title> <content>", fs)
  | title :: rest =>
    match fs.openWrite (notePath sh title) (String.intercalate " " rest).data with
    | .ok fs2 => (s!"Note '{title}' created.", fs2)
    | .error e => (e, fs)

/-- `Shell._edit`: `--replace` anywhere in the arguments selects replace
mode; otherwise the text is appended, with a newline separator exactly when
the existing content is nonempty and does not already end in one. -/
def editCmd (sh : Shell) (fs : FS) (args : List String) : String × FS :=
  match args with
  | [] => ("Usage: edit <title> <text> [--replace]", fs)
  | [_] => ("Usage: edit <title> <text> [--replace]", fs)
  | title :: rest =>
    let p := notePath sh title
    let replaceMode := (title :: rest).contains "--replace"
    let newText :=
      if replaceMode then
        String.intercalate " " (rest.filter (fun a => a ≠ "--replace"))
      else String.intercalate " " rest
    if !(fs.existsPath p) then
      (s!"Note '{title}' not found. Use 'add' to create.", fs)
    else if replaceMode then
      match fs.openWrite p newText.data with
      | .ok fs2 => (s!"Note '{title}' replaced.", fs2)
      | .error e => (e, fs)
    else
      match fs.readFile p with
      | none => (isADirectoryMsg p, fs)
      | some existing =>
        let newContent :=
          if !(existing.isEmpty) && !(endsNL existing) then
            existing ++ '\n' :: newText.data
          else existing ++ newText.data
        match fs.openWrite p newContent with
        | .ok fs2 => (s!"Text added to note '{title}'.", fs2)
        | .error e => (e, fs)

/-- `Shell._remove`: folder mode resolves through the sandbox check and
deletes recursively; note mode joins the title to the current directory. -/
def removeCmd (sh : Shell) (fs : FS) (args : List String) : String × FS :=
  match args with
  | [] => ("Usage: remove <title> or remove -d <folder>", fs)
  | a0 :: rest =>
    if a0 = "-d" || a0 = "--folder" || a0 = "--dir" then
      match rest with
      | [] => ("Usage: remove -d <folder>", fs)
      | t :: _ =>
        match resolvePath sh t with
        | .error e => (e, fs)
        | .ok p =>
          if fs.existsPath p && fs.isDir p then
            (s!"Folder '{t}' and its content deleted.", fs.rmtree p)
          else (s!"Folder '{t}' not found.", fs)
    else
      let p := notePath sh a0
      if fs.isFile p then (s!"Note '{a0}' deleted.", fs.removeFile p)
      else if fs.isDir p then (isADirectoryMsg p, fs)
      else (s!"Note '{a0}' not found.", fs)

/-- `Shell._list`: `os.listdir` on a stale current directory raises, and the
dispatcher returns the message. -/
def listCmd (sh : Shell) (fs : FS) : String :=
  if fs.isDir sh.cwd then
    let notes :=
      ((fs.listdir sh.cwd).filter (fun f => ".txt".data.isSuffixOf f.data)).map
        (fun f => String.mk (f.data.take (f.data.length - 4)))
    if !(notes.isEmpty) then
      String.intercalate "\n"
        ("Notes in this directory:" :: (sortStrings notes).map (fun n => " - " ++ n))
    else "No notes in this directory."
  else if fs.isFile sh.cwd then
    "[Errno 20] Not a directory: '" ++ pathStr sh.cwd ++ "'"
  else noSuchFileMsg sh.cwd

/-- `Shell._done`: append the done marker on its own line after trimming
trailing whitespace, unless the marker is already present. -/
def doneCmd (sh : Shell) (fs : FS) (args : List String) : String × FS :=
  match args with
  | [] => ("Usage: done <title>", fs)
  | t :: _ =>
    let p := notePath sh t
    if fs.existsPath p then
      match fs.readFile p with
      | none => (isADirectoryMsg p, fs)
      | some content =>
        if !(containsSub doneMarker content) then
          match fs.openWrite p (rstrip content ++ '\n' :: doneMarker ++ [ '\n' ]) with
          | .ok fs2 => (s!"Note '{t}' marked as done.", fs2)
          | .error e => (e, fs)
        else (s!"Note '{t}' is already done.", fs)
    else (s!"Note '{t}' not found.", fs)

/-- `Shell._check`: parse every line number first (any failure aborts the
whole command), then toggle each requested line in order, writing the file
back once at the end and only if something was toggled. -/
def checkCmd (sh : Shell) (fs : FS) (args : List String) : String × FS :=
  match args with
  | [] => ("Usage: check <title> <line_number> [line_number2 ...]", fs)
  | [_] => ("Usage: check <title> <line_number> [line_number2 ...]", fs)
  | title :: numArgs =>
    match parseAll numArgs with
    | none => ("All line numbers must be integers.", fs)
    | some nums =>
      let p := notePath sh title
      if !(fs.existsPath p) then (s!"Note '{title}' not found.", fs)
      else
        match fs.readFile p with
        | none => (isADirectoryMsg p, fs)
        | some content =>
          let st := nums.foldl checkStep (readlines content, [], false)
          let out := String.intercalate "\n" st.2.1
          if st.2.2 then
            match fs.openWrite p (joinLines st.1) with
            | .ok fs2 => (out, fs2)
            | .error e => (e, fs)
          else (out, fs)

/-- `Shell._show`. -/
def showCmd (sh : Shell) (fs : FS) (args : List String) : String :=
  match args with
  | [] => "Usage: show <title>"
  | t :: _ =>
    let p := notePath sh t
    match fs.readFile p with
    | some content => "=== " ++ t ++ " ===\n" ++ String.mk content
    | none => if fs.isDir p then isADirectoryMsg p else s!"Note '{t}' not found."

/-- `Shell._mkdir`. -/
def mkdirCmd (sh : Shell) (fs : FS) (args : List String) : String × FS :=
  match args with
  | [] => ("Usage: mkdir <name>", fs)
  | a :: _ =>
    match resolvePath sh a with
    | .error e => (e, fs)
    | .ok p =>
      if fs.isFile p then ("[Errno 17] File exists: '" ++ pathStr p ++ "'", fs)
      else if p.inits.any (fun q => fs.isFile q) then
        ("[Errno 20] Not a directory: '" ++ pathStr p ++ "'", fs)
      else (s!"Directory '{a}' created.", fs.mkdirs p)

/-- The command registry (name, help text) built in `Shell.__init__`. -/
def commandTable : List (String × String) :=
  [("help", "Show available commands"),
   ("exit", "Exit the shell"),
   ("ls", "List files in current directory"),
   ("pwd", "Show current directory (relative to notes/)"),
   ("cd", "Change directory: cd <path>"),
   ("add", "Create a note: add <title>"),
   ("edit", "Edit a note: edit <title>"),
   ("remove", "Delete a note or folder: remove <title> | remove -d <folder>"),
   ("done", "Mark a note as done: done <title>"),
   ("check", "Toggle todo checkbox: check <title> <line_number> [line_number2 ...]"),
   ("show", "Show note content: show <title>"),
   ("list", "List notes in current directory"),
   ("mkdir", "Create a directory: mkdir <name>"),
   ("clear", "Clear the console"),
   ("send", "Send a note via email: send <title> [to_email]")]

/-- `Shell.get_help`. -/
def helpTextMain : String :=
  String.intercalate "\n"
    (commandTable.map (fun e => e.1 ++ "\t- " ++ e.2) ++
      ["\nGUI Features:", "Ctrl+M\t- Toggle Vim mode in text editor",
       "\nFor detailed Vim keybindings, type: help vim"])

/-- `Shell._get_vim_help`. -/
def vimHelpText : String :=
  "Vim Mode Keybindings\n====================\n\nActivation:\n  Ctrl+M         - Toggle Vim mode on/off (works in editor and command line)\n  Button         - Click \"Vim Mode\" button\n\nVisual Indicators:\n  Blue border    - Normal mode (navigation)\n  Green border   - Insert mode (editing)\n\nMovement (Normal Mode):\n  h/j/k/l        - left/down/up/right\n  w              - next word start\n  b              - previous word start\n  e              - next word end\n  0              - start of line\n  ^              - first non-blank character\n  $              - end of line\n  gg             - go to top of document\n  G              - go to bottom of document\n  Ctrl+U         - page up\n  Ctrl+D         - page down\n\nInsert Mode:\n  i              - insert before cursor\n  a              - insert after cursor\n  I              - insert at start of line\n  A              - insert at end of line\n  o              - open new line below\n  O              - open new line above\n  ESC            - return to normal mode\n  kj             - return to normal mode (alternative to ESC)\n\nEditing (Normal Mode):\n  x              - delete character under cursor\n  X              - delete character before cursor\n  dd             - delete current line\n  D              - delete to end of line\n  yy             - copy current line\n  p              - paste after cursor/line\n  P              - paste before cursor/line\n  cc             - change (delete and insert) current line\n  C              - change to end of line\n  u              - undo\n  Ctrl+R         - redo\n\nSaving:\n  Enter          - save and exit edit mode (Normal mode only)\n"

/-- `Shell._help`. -/
def helpCmd (args : List String) : String :=
  match args with
  | [] => helpTextMain
  | a :: _ => if a.toLower = "vim" then vimHelpText else helpTextMain

/-- `Shell._send` delegates to `email_note`, which reads mail configuration
and talks to an SMTP server: effects entirely outside the sandbox
filesystem and the session state. Its output string is abstracted here; no
claim depends on it. -/
def email_note (title : String) : String :=
  s!"(external email delivery for note '{title}')"

/-- `Shell._send`. -/
def sendCmd (sh : Shell) (fs : FS) (args : List String) : String :=
  match args with
  | [] => "Usage: send <title> [to_email]"
  | t :: _ =>
    if fs.existsPath (notePath sh t) then email_note t
    else s!"Note '{t}' not found."

/-- `Shell.run_command`, modelled over the token list: both `shlex.split`
and the naive whitespace fallback produce a token list and touch neither
session state nor filesystem, so the dispatcher is quantified over tokens;
the empty token list is the blank-line case. -/
def run_command (sh : Shell) (fs : FS) (parts : List String) :
    String × FS × Shell :=
  match parts with
  | [] => ("", fs, sh)
  | cmd :: args =>
    if cmd = "help" then (helpCmd args, fs, sh)
    else if cmd = "exit" then ("Bye.", fs, { sh with running := false })
    else if cmd = "ls" then (lsCmd sh fs args, fs, sh)
    else if cmd = "pwd" then (pwdCmd sh, fs, sh)
    else if cmd = "cd" then
      let r := cdCmd sh fs args
      (r.1, fs, r.2)
    else if cmd = "add" then
      let r := addCmd sh fs args
      (r.1, r.2, sh)
    else if cmd = "edit" then
      let r := editCmd sh fs args
      (r.1, r.2, sh)
    else if cmd = "remove" then
      let r := removeCmd sh fs args
      (r.1, r.2, sh)
    else if cmd = "done" then
      let r := doneCmd sh fs args
      (r.1, r.2, sh)
    else if cmd = "check" then
      let r := checkCmd sh fs args
      (r.1, r.2, sh)
    else if cmd = "show" then (showCmd sh fs args, fs, sh)
    else if cmd = "list" then (listCmd sh fs, fs, sh)
    else if cmd = "mkdir" then
      let r := mkdirCmd sh fs args
      (r.1, r.2, sh)
    else if cmd = "clear" then ("\x1bc", fs, sh)
    else if cmd = "send" then (sendCmd sh fs args, fs, sh)
    else ("Command not found: " ++ cmd, fs, sh)

/-! ## Toggle lemmas for `Shell._check` -/

theorem replaceFirst_pos {pat rep l : List Char} (hp : pat ≠ [])
    (h : pat.isPrefixOf l = true) :
    replaceFirst pat rep l = rep ++ l.drop pat.length := by
  cases l with
  | nil =>
    exfalso
    rcases (isPrefixOf_iff _ _).mp h with ⟨t, ht⟩
    exact hp (List.append_eq_nil.mp ht.symm).1
  | cons c cs => simp [replaceFirst, h]

theorem replaceFirst_cons_neg {pat rep : List Char} {c : Char} {cs : List Char}
    (h : pat.isPrefixOf (c :: cs) = false) :
    replaceFirst pat rep (c :: cs) = c :: replaceFirst pat rep cs := by
  simp [replaceFirst, h]

/-- Shape lemma for the marker patterns: replacing a bracket-marker inside
`cs` cannot create a fresh `['[', q1, q2]` occurrence at the very front of
`c :: cs`, because every marker starts with an opening bracket. -/
theorem prefix3_replaceFirst_false {q1 q2 : Char} {pat2 rep2 : List Char}
    {c : Char} {cs : List Char}
    (hq1 : (q1 == '[') = false) (hq2 : (q2 == '[') = false)
    (hp2ne : pat2 ≠ []) (hrep : ∃ rr, rep2 = '[' :: rr)
    (hpre : List.isPrefixOf [ '[' , q1, q2] (c :: cs) = false) :
    List.isPrefixOf [ '[' , q1, q2] (c :: replaceFirst pat2 rep2 cs) = false := by
  obtain ⟨rr, hrr⟩ := hrep
  by_cases hp2 : pat2.isPrefixOf cs = true
  · rw [replaceFirst_pos hp2ne hp2, hrr]
    simp [List.isPrefixOf, hq1]
  · cases cs with
    | nil => simp [replaceFirst, List.isPrefixOf]
    | cons d ds =>
      rw [replaceFirst_cons_neg (Bool.of_not_eq_true hp2)]
      by_cases hc1 : ('[' == c) = true
      · by_cases hc2 : (q1 == d) = true
        · have hq2ds : List.isPrefixOf [q2] ds = false := by
            simp only [List.isPrefixOf, hc1, hc2, Bool.true_and] at hpre
            exact hpre
          have hgoal : List.isPrefixOf [q2] (replaceFirst pat2 rep2 ds) = false := by
            by_cases hp2ds : pat2.isPrefixOf ds = true
            · rw [replaceFirst_pos hp2ne hp2ds, hrr]
              simp [List.isPrefixOf, hq2]
            · cases ds with
              | nil => simp [replaceFirst, List.isPrefixOf]
              | cons e es =>
                rw [replaceFirst_cons_neg (Bool.of_not_eq_true hp2ds)]
                simp only [List.isPrefixOf] at hq2ds ⊢
                simpa using hq2ds
          simp [List.isPrefixOf, hc1, hc2, hgoal]
        · simp [List.isPrefixOf, Bool.of_not_eq_true hc2]
      · simp [List.isPrefixOf, hc1]

/-- Toggling a line whose only markers are checked ones restores it on the
second toggle: the unchecked marker created by the first toggle sits exactly
where the first checked marker was. -/
theorem toggle_checked_restores {l : List Char}
    (hu : containsSub uncheckedPat l = false)
    (hx : containsSub checkedPat l = true) :
    containsSub uncheckedPat (replaceFirst checkedPat uncheckedPat l) = true ∧
    replaceFirst uncheckedPat checkedPat
      (replaceFirst checkedPat uncheckedPat l) = l := by
  induction l with
  | nil => exact absurd hx (by decide)
  | cons c cs ih =>
    by_cases hxpre : checkedPat.isPrefixOf (c :: cs) = true
    · rcases (isPrefixOf_iff _ _).mp hxpre with ⟨w, hw⟩
      have h1 : replaceFirst checkedPat uncheckedPat (c :: cs)
          = uncheckedPat ++ w := by
        rw [replaceFirst_pos (by decide) hxpre, hw, List.drop_left]
      constructor
      · rw [h1]
        simpa using containsSub_middle uncheckedPat [] w
      · rw [h1, replaceFirst_pos (by decide)
          (isPrefixOf_append_right w (by decide)), List.drop_left, hw]
    · have hu2 : uncheckedPat.isPrefixOf (c :: cs) = false
          ∧ containsSub uncheckedPat cs = false := by
        simpa only [containsSub, Bool.or_eq_false_iff] using hu
      have hxcs : containsSub checkedPat cs = true := by
        simp only [containsSub, Bool.or_eq_true] at hx
        rcases hx with h | h
        · exact absurd h hxpre
        · exact h
      obtain ⟨ih1, ih2⟩ := ih hu2.2 hxcs
      rw [replaceFirst_cons_neg (Bool.of_not_eq_true hxpre)]
      constructor
      · simp only [containsSub, Bool.or_eq_true]
        exact Or.inr ih1
      · have hnp : uncheckedPat.isPrefixOf
            (c :: replaceFirst checkedPat uncheckedPat cs) = false :=
          prefix3_replaceFirst_false (by decide) (by decide) (by decide)
            ⟨[ ' ' , ']' ], rfl⟩ hu2.1
        rw [replaceFirst_cons_neg hnp, ih2]

/-- The condition under which toggling an unchecked line twice restores it:
the first marker reached while scanning is an unchecked one (no checked
marker before it) and no further unchecked marker follows it. -/
def safeUnchecked : List Char → Bool
  | [] => false
  | c :: cs =>
    if uncheckedPat.isPrefixOf (c :: cs) then
      !(containsSub uncheckedPat ((c :: cs).drop 3))
    else if checkedPat.isPrefixOf (c :: cs) then false
    else safeUnchecked cs

/-- Toggling a line satisfying `safeUnchecked` twice restores it: the first
toggle checks the unique unchecked marker, and the second toggle finds that
same marker as the first checked occurrence. -/
theorem toggle_unchecked_restores {l : List Char} (hs : safeUnchecked l = true) :
    containsSub uncheckedPat l = true ∧
    containsSub uncheckedPat (replaceFirst uncheckedPat checkedPat l) = false ∧
    containsSub checkedPat (replaceFirst uncheckedPat checkedPat l) = true ∧
    replaceFirst checkedPat uncheckedPat
      (replaceFirst uncheckedPat checkedPat l) = l := by
  induction l with
  | nil => exact absurd hs (by decide)
  | cons c cs ih =>
    by_cases hupre : uncheckedPat.isPrefixOf (c :: cs) = true
    · rcases (isPrefixOf_iff _ _).mp hupre with ⟨w, hw⟩
      have hdw : (c :: cs).drop 3 = w := by
        rw [hw]
        exact List.drop_left uncheckedPat w
      have huw : containsSub uncheckedPat w = false := by
        rw [safeUnchecked, if_pos hupre, hdw] at hs
        simpa using hs
      have h1 : replaceFirst uncheckedPat checkedPat (c :: cs)
          = checkedPat ++ w := by
        rw [replaceFirst_pos (by decide) hupre, hw, List.drop_left]
      refine ⟨by rw [hw]; simpa using containsSub_middle uncheckedPat [] w,
        ?_, ?_, ?_⟩
      · rw [h1]
        rw [show checkedPat ++ w = '[' :: 'x' :: ']' :: w from rfl]
        have huw2 : containsSub [ '[' , ' ' , ']' ] w = false := huw
        simp [containsSub, uncheckedPat, List.isPrefixOf, huw2]
      · rw [h1]
        simpa using containsSub_middle checkedPat [] w
      · rw [h1, replaceFirst_pos (by decide)
          (isPrefixOf_append_right w (by decide)), List.drop_left, hw]
    · by_cases hxpre : checkedPat.isPrefixOf (c :: cs) = true
      · exfalso
        rw [safeUnchecked, if_neg (by simp [hupre]), if_pos hxpre] at hs
        cases hs
      · have hscs : safeUnchecked cs = true := by
          rw [safeUnchecked, if_neg (by simp [hupre]),
            if_neg (by simp [hxpre])] at hs
          exact hs
        obtain ⟨ih1, ih2, ih3, ih4⟩ := ih hscs
        have hupre2 := Bool.of_not_eq_true hupre
        have hxpre2 := Bool.of_not_eq_true hxpre
        rw [replaceFirst_cons_neg hupre2]
        refine ⟨?_, ?_, ?_, ?_⟩
        · simp only [containsSub, Bool.or_eq_true]
          exact Or.inr ih1
        · have hnp : uncheckedPat.isPrefixOf
              (c :: replaceFirst uncheckedPat checkedPat cs) = false :=
            prefix3_replaceFirst_false (by decide) (by decide) (by decide)
              ⟨[ 'x' , ']' ], rfl⟩ hupre2
          simp only [containsSub, Bool.or_eq_false_iff]
          exact ⟨hnp, ih2⟩
        · simp only [containsSub, Bool.or_eq_true]
          exact Or.inr ih3
        · have hnx : checkedPat.isPrefixOf
              (c :: replaceFirst uncheckedPat checkedPat cs) = false :=
            prefix3_replaceFirst_false (by decide) (by decide) (by decide)
              ⟨[ 'x' , ']' ], rfl⟩ hxpre2
          rw [replaceFirst_cons_neg hnx, ih4]

theorem toggleLine_unchecked {l : List Char}
    (h : containsSub uncheckedPat l = true) :
    ∃ a b, l = a ++ uncheckedPat ++ b ∧
      toggleLine l = some (a ++ checkedPat ++ b, true) ∧
      ∀ a2 b2, l = a2 ++ uncheckedPat ++ b2 → a.length ≤ a2.length := by
  rcases replaceFirst_spec checkedPat (by decide) h with ⟨a, b, hab, hrep, hmin⟩
  exact ⟨a, b, hab, by simp [toggleLine, h, hrep], hmin⟩

theorem toggleLine_checked {l : List Char}
    (hu : containsSub uncheckedPat l = false)
    (hx : containsSub checkedPat l = true) :
    ∃ a b, l = a ++ checkedPat ++ b ∧
      toggleLine l = some (a ++ uncheckedPat ++ b, false) ∧
      ∀ a2 b2, l = a2 ++ checkedPat ++ b2 → a.length ≤ a2.length := by
  rcases replaceFirst_spec uncheckedPat (by decide) hx with ⟨a, b, hab, hrep, hmin⟩
  exact ⟨a, b, hab, by simp [toggleLine, hu, hx, hrep], hmin⟩

theorem toggleLine_none {l : List Char}
    (hu : containsSub uncheckedPat l = false)
    (hx : containsSub checkedPat l = false) : toggleLine l = none := by
  simp [toggleLine, hu, hx]

/-- A line is a todo item iff it contains one of the two markers. -/
def hasMarker (l : List Char) : Bool :=
  containsSub uncheckedPat l || containsSub checkedPat l

theorem toggleLine_isSome (l : List Char) :
    (toggleLine l).isSome = hasMarker l := by
  by_cases hu : containsSub uncheckedPat l = true
  · simp [toggleLine, hasMarker, hu]
  · by_cases hx : containsSub checkedPat l = true
    · simp [toggleLine, hasMarker, Bool.of_not_eq_true hu, hx]
    · simp [toggleLine, hasMarker, Bool.of_not_eq_true hu, Bool.of_not_eq_true hx]

theorem pat_swap_append_ne {pat1 pat2 : List Char} (a c : List Char)
    (hlen : pat1.length = pat2.length) (hne : pat1 ≠ pat2) :
    a ++ pat1 ++ c ≠ a ++ pat2 ++ c := by
  intro he
  rw [List.append_assoc, List.append_assoc] at he
  have h1 : pat1 ++ c = pat2 ++ c := List.append_inj_right he rfl
  exact hne (List.append_inj_left h1 hlen)

theorem toggleLine_facts {l l2 : List Char} {b : Bool}
    (h : toggleLine l = some (l2, b)) :
    hasMarker l = true ∧ hasMarker l2 = true ∧ l2.length = l.length ∧ l2 ≠ l := by
  by_cases hu : containsSub uncheckedPat l = true
  · rcases toggleLine_unchecked hu with ⟨a, c, hab, ht, _⟩
    rw [ht] at h
    have h2 : l2 = a ++ checkedPat ++ c := by
      cases h
      rfl
    refine ⟨by simp [hasMarker, hu], ?_, ?_, ?_⟩
    · simp only [h2, hasMarker, Bool.or_eq_true]
      right
      simpa using containsSub_middle checkedPat a c
    · rw [h2, hab]
      simp [checkedPat, uncheckedPat]
    · rw [h2, hab]
      exact pat_swap_append_ne a c (by decide) (by decide)
  · by_cases hx : containsSub checkedPat l = true
    · rcases toggleLine_checked (Bool.of_not_eq_true hu) hx with ⟨a, c, hab, ht, _⟩
      rw [ht] at h
      have h2 : l2 = a ++ uncheckedPat ++ c := by
        cases h
        rfl
      refine ⟨by simp [hasMarker, hx], ?_, ?_, ?_⟩
      · simp only [h2, hasMarker, Bool.or_eq_true]
        left
        simpa using containsSub_middle uncheckedPat a c
      · rw [h2, hab]
        simp [checkedPat, uncheckedPat]
      · rw [h2, hab]
        exact pat_swap_append_ne a c (by decide) (by decide)
    · rw [toggleLine_none (Bool.of_not_eq_true hu) (Bool.of_not_eq_true hx)] at h
      cases h

theorem lineWF_build {p : List Char} (h1 : p ≠ []) (h2 : '\n' ∉ p.dropLast) :
    lineWF p = true := by
  simp [lineWF, List.isEmpty_iff, h1, contains_eq_decide_mem, h2]

theorem not_mem_replaceFirst {pat rep l : List Char} {ch : Char}
    (hpne : pat ≠ []) (h1 : ch ∉ l) (h2 : ch ∉ rep) :
    ch ∉ replaceFirst pat rep l := by
  intro hm
  rcases mem_replaceFirst hpne hm with h | h
  · exact h1 h
  · exact h2 h

/-- A marker replacement preserves line well-formedness and whether the
line ends with a newline (markers are newline-free and equal length). -/
theorem toggle_lineWF {pat rep p : List Char}
    (hpne : pat ≠ []) (hlen : rep.length = pat.length)
    (hnlp : '\n' ∉ pat) (hnlr : '\n' ∉ rep)
    (hwf : lineWF p = true) :
    lineWF (replaceFirst pat rep p) = true ∧
      endsNL (replaceFirst pat rep p) = endsNL p := by
  obtain ⟨hne, hnldrop⟩ := lineWF_parts hwf
  by_cases hend : endsNL p = true
  · have hlast : p.getLast hne = '\n' := by
      rw [endsNL, List.getLast?_eq_getLast p hne] at hend
      simpa using hend
    have hp : p = p.dropLast ++ [ '\n' ] := by
      conv_lhs => rw [← List.dropLast_append_getLast hne]
      rw [hlast]
    have hrw : replaceFirst pat rep p
        = replaceFirst pat rep p.dropLast ++ [ '\n' ] := by
      conv_lhs => rw [hp]
      exact replaceFirst_concat_nl hpne hnlp
    have hnlR : '\n' ∉ replaceFirst pat rep p.dropLast :=
      not_mem_replaceFirst hpne hnldrop hnlr
    constructor
    · rw [hrw]
      refine lineWF_build (by simp) ?_
      rw [List.dropLast_concat]
      exact hnlR
    · rw [hrw, hend]
      simp [endsNL, List.getLast?_concat]
  · have hnlp2 : '\n' ∉ p := not_nl_mem_of_lineWF hwf (Bool.of_not_eq_true hend)
    have hnlR : '\n' ∉ replaceFirst pat rep p :=
      not_mem_replaceFirst hpne hnlp2 hnlr
    have hRne : replaceFirst pat rep p ≠ [] := by
      intro he
      have hl := length_replaceFirst p hpne hlen
      rw [he] at hl
      exact hne (List.eq_nil_of_length_eq_zero hl.symm)
    constructor
    · exact lineWF_build hRne (fun hm => hnlR (mem_of_mem_dropLast hm))
    · rw [Bool.of_not_eq_true hend]
      by_contra hc
      exact hnlR (endsNL_true_mem (Bool.of_not_eq_false hc))

/-- The instantiation used by `Shell._check`: toggled lines stay
well-formed stored lines (both markers are newline-free, same length). -/
theorem toggleLine_lineWF {l l2 : List Char} {b : Bool}
    (h : toggleLine l = some (l2, b)) (hwf : lineWF l = true) :
    lineWF l2 = true ∧ endsNL l2 = endsNL l := by
  by_cases hu : containsSub uncheckedPat l = true
  · have h2 : l2 = replaceFirst uncheckedPat checkedPat l := by
      rw [toggleLine, if_pos hu] at h
      cases h
      rfl
    rw [h2]
    exact toggle_lineWF (by decide) (by decide) (by decide) (by decide) hwf
  · by_cases hx : containsSub checkedPat l = true
    · have h2 : l2 = replaceFirst checkedPat uncheckedPat l := by
        rw [toggleLine, if_neg (by simp [hu]), if_pos hx] at h
        cases h
        rfl
      rw [h2]
      exact toggle_lineWF (by decide) (by decide) (by decide) (by decide) hwf
    · rw [toggleLine_none (Bool.of_not_eq_true hu) (Bool.of_not_eq_true hx)] at h
      cases h

/-- Whether the `check` loop would toggle line number `n` of `L`: `n` is in
range (1-based) and the addressed line carries a marker. -/
def togglableAt (L : List (List Char)) (n : Int) : Bool :=
  decide (1 ≤ n) && decide (n ≤ (L.length : Int))
    && hasMarker (L.getD (n - 1).toNat [])

theorem checkStep_out {st : List (List Char) × List String × Bool} {n : Int}
    (h : (decide (n < 1) || decide (n > (st.1.length : Int))) = true) :
    checkStep st n = (st.1, st.2.1 ++ [outOfRangeMsg n st.1.length], st.2.2) := by
  rw [checkStep, if_pos h]

theorem checkStep_none {st : List (List Char) × List String × Bool} {n : Int}
    (h : (decide (n < 1) || decide (n > (st.1.length : Int))) = false)
    (htl : toggleLine (st.1.getD (n - 1).toNat []) = none) :
    checkStep st n = (st.1, st.2.1 ++ [notTodoMsg n], st.2.2) := by
  rw [checkStep, if_neg (by simp [h]), htl]

theorem checkStep_toggle {st : List (List Char) × List String × Bool} {n : Int}
    {l2 : List Char} {bb : Bool}
    (h : (decide (n < 1) || decide (n > (st.1.length : Int))) = false)
    (htl : toggleLine (st.1.getD (n - 1).toNat []) = some (l2, bb)) :
    checkStep st n = (st.1.set (n - 1).toNat l2,
      st.2.1 ++ [if bb then checkedMsg n else uncheckedMsg n], true) := by
  rw [checkStep, if_neg (by simp [h]), htl]
  cases bb <;> rfl

/-- Invariant of the `Shell._check` loop: steps preserve the length of the
line list and whether each line carries a marker, and the `modified` flag
ends up set exactly when some requested line number addresses, in range, a
line that carried a marker in the initial list. -/
theorem checkFold_invariant (L0 : List (List Char)) (nums : List Int) :
    ∀ (L : List (List Char)) (res : List String) (m : Bool),
      L.length = L0.length →
      (∀ i, hasMarker (L.getD i []) = hasMarker (L0.getD i [])) →
      (nums.foldl checkStep (L, res, m)).1.length = L0.length ∧
      (∀ i, hasMarker ((nums.foldl checkStep (L, res, m)).1.getD i [])
          = hasMarker (L0.getD i [])) ∧
      (nums.foldl checkStep (L, res, m)).2.2
        = (m || nums.any (fun n => togglableAt L0 n)) := by
  induction nums with
  | nil =>
    intro L res m h1 h2
    exact ⟨h1, h2, by simp⟩
  | cons n ns ih =>
    intro L res m h1 h2
    rw [List.foldl_cons]
    by_cases hout : (decide (n < 1) || decide (n > (L.length : Int))) = true
    · rw [checkStep_out hout]
      rcases ih L _ m h1 h2 with ⟨g1, g2, g3⟩
      refine ⟨g1, g2, ?_⟩
      rw [g3]
      have htog : togglableAt L0 n = false := by
        rw [togglableAt]
        simp only [Bool.or_eq_true, decide_eq_true_eq] at hout
        rw [h1] at hout
        rcases hout with h | h
        · have hd : decide (1 ≤ n) = false := by
            simp only [decide_eq_false_iff_not]
            omega
          simp [hd]
        · have hd : decide (n ≤ (L0.length : Int)) = false := by
            simp only [decide_eq_false_iff_not]
            omega
          simp [hd]
      simp [htog]
    · have hout2 : (decide (n < 1) || decide (n > (L.length : Int))) = false :=
        Bool.of_not_eq_true hout
      have hin : 1 ≤ n ∧ n ≤ (L.length : Int) := by
        simp only [Bool.or_eq_false_iff, decide_eq_false_iff_not] at hout2
        omega
      have hidx : (n - 1).toNat < L.length := by omega
      have hinr : (decide (1 ≤ n) && decide (n ≤ (L0.length : Int))) = true := by
        rw [← h1]
        simp [hin.1, hin.2]
      cases htl : toggleLine (L.getD (n - 1).toNat []) with
      | none =>
        rw [checkStep_none hout2 htl]
        rcases ih L _ m h1 h2 with ⟨g1, g2, g3⟩
        refine ⟨g1, g2, ?_⟩
        rw [g3]
        have hmk : hasMarker (L.getD (n - 1).toNat []) = false := by
          have hh := toggleLine_isSome (L.getD (n - 1).toNat [])
          rw [htl] at hh
          simpa using hh.symm
        have htog : togglableAt L0 n = false := by
          rw [togglableAt, ← h2 ((n - 1).toNat), hmk]
          simp
        simp [htog]
      | some pr =>
        rcases pr with ⟨l2, bb⟩
        obtain ⟨hm1, hm2, hm3, _⟩ := toggleLine_facts htl
        rw [checkStep_toggle hout2 htl]
        have h1b : (L.set (n - 1).toNat l2).length = L0.length := by
          simpa using h1
        have h2b : ∀ i, hasMarker ((L.set (n - 1).toNat l2).getD i [])
            = hasMarker (L0.getD i []) := by
          intro i
          by_cases hi : i = (n - 1).toNat
          · subst hi
            rw [getD_set_self L _ _ _ hidx, hm2, ← h2 ((n - 1).toNat), hm1]
          · rw [getD_set_ne L _ _ _ _ hi]
            exact h2 i
        rcases ih (L.set (n - 1).toNat l2) _ true h1b h2b with ⟨g1, g2, g3⟩
        refine ⟨g1, g2, ?_⟩
        rw [g3]
        have htog : togglableAt L0 n = true := by
          rw [togglableAt, hinr, ← h2 ((n - 1).toNat), hm1]
          simp
        simp [htog]

/-- Occurrences of a newline-free pattern in `s ++ '\n' :: t` all lie in
`t`-side material when `s` contains none. -/
theorem countSub_append_before_nl {p s t : List Char} (hnlp : '\n' ∉ p)
    (hs : containsSub p s = false) :
    countSub p (s ++ '\n' :: t) = countSub p ('\n' :: t) := by
  induction s with
  | nil => rfl
  | cons c cs ih =>
    have hparts : p.isPrefixOf (c :: cs) = false ∧ containsSub p cs = false := by
      simpa only [containsSub, Bool.or_eq_false_iff] using hs
    have hnp : p.isPrefixOf ((c :: cs) ++ '\n' :: t) = false := by
      by_contra hc
      have hc2 := Bool.of_not_eq_false hc
      rcases isPrefixOf_append_cases hc2 with h1 | ⟨x, hx1, hx2⟩
      · exact absurd h1 (by simp [hparts.1])
      · cases x with
        | nil =>
          apply absurd _ (show ¬ p.isPrefixOf (c :: cs) = true by simp [hparts.1])
          rw [hx1, List.append_nil]
          exact (isPrefixOf_iff (c :: cs) (c :: cs)).mpr ⟨[], by simp⟩
        | cons y ys =>
          rcases (isPrefixOf_iff _ _).mp hx2 with ⟨w, hw⟩
          have hy : y = '\n' := by
            simp only [List.cons_append, List.cons.injEq] at hw
            exact hw.1.symm
          apply hnlp
          rw [hx1, hy]
          simp
    calc countSub p ((c :: cs) ++ '\n' :: t)
        = (if p.isPrefixOf ((c :: cs) ++ '\n' :: t) then 1 else 0)
            + countSub p (cs ++ '\n' :: t) := rfl
      _ = countSub p (cs ++ '\n' :: t) := by
            rw [hnp]
            simp
      _ = countSub p ('\n' :: t) := ih hparts.2

/-- The content written by `done` contains the done marker exactly once. -/
theorem countSub_done {C : List Char} (h : containsSub doneMarker C = false) :
    countSub doneMarker (rstrip C ++ '\n' :: doneMarker ++ [ '\n' ]) = 1 := by
  have h2 : containsSub doneMarker (rstrip C) = false := not_containsSub_rstrip h
  have he : rstrip C ++ '\n' :: doneMarker ++ [ '\n' ]
      = rstrip C ++ '\n' :: (doneMarker ++ [ '\n' ]) := by simp
  rw [he, countSub_append_before_nl (by decide) h2]
  decide

/-- The content written by `done` does contain the marker (branch condition
of the second invocation). -/
theorem containsSub_done (C : List Char) :
    containsSub doneMarker (rstrip C ++ '\n' :: doneMarker ++ [ '\n' ]) = true := by
  have he : rstrip C ++ '\n' :: doneMarker ++ [ '\n' ]
      = (rstrip C ++ [ '\n' ]) ++ doneMarker ++ [ '\n' ] := by simp
  rw [he]
  exact containsSub_middle doneMarker (rstrip C ++ [ '\n' ]) [ '\n' ]

/-! ## Rendered-path lemmas for the sandbox containment check -/

theorem strOf_append (a b : List String) :
    strOf (a ++ b) = strOf a ++ strOf b := by
  induction a with
  | nil => simp [strOf]
  | cons c cs ih => simp [strOf, ih]

theorem strOf_length_lt (t : List String) (e : String) (rest : List String) :
    (strOf t).length < (strOf (t ++ e :: rest)).length := by
  rw [strOf_append, List.length_append]
  have h1 : 1 ≤ (strOf (e :: rest)).length := by
    rw [strOf]
    simp
  omega

/-- A proper component-prefix of the sandbox root never passes the
`startswith` check: its rendered string is strictly shorter. Hence a
successfully resolved `rmtree` target other than the root itself cannot be
an ancestor of the root. -/
theorem resolved_not_above_root {sh : Shell} {t : List String}
    (hok : (strOf sh.sandbox_root).isPrefixOf (strOf t) = true)
    (hne : t ≠ sh.sandbox_root) :
    t.isPrefixOf sh.sandbox_root = false := by
  by_contra hc
  rcases (isPrefixOf_iff _ _).mp (Bool.of_not_eq_false hc) with ⟨w, hw⟩
  cases w with
  | nil => exact hne (by simpa using hw.symm)
  | cons e rest =>
    have hlt := strOf_length_lt t e rest
    rw [← hw] at hlt
    rcases (isPrefixOf_iff _ _).mp hok with ⟨z, hz⟩
    rw [hz, List.length_append] at hlt
    omega

theorem resolvePath_ok_extends {sh : Shell} {p : String} {t : List String}
    (h : resolvePath sh p = .ok t) :
    (strOf sh.sandbox_root).isPrefixOf (strOf t) = true
      ∧ t = resolveTarget sh p := by
  rw [resolvePath] at h
  by_cases hc : (strOf sh.sandbox_root).isPrefixOf (strOf (resolveTarget sh p))
      = true
  · rw [if_pos hc] at h
    cases h
    exact ⟨hc, rfl⟩
  · rw [if_neg hc] at h
    cases h

theorem resolvePath_error {sh : Shell} {p : String}
    (h : (strOf sh.sandbox_root).isPrefixOf (strOf (resolveTarget sh p))
      = false) :
    resolvePath sh p = .error sandboxViolationMsg := by
  rw [resolvePath, if_neg (by simp [h])]

/-! ## Filesystem lemmas -/

theorem readFile_writeFile (fs : FS) (p : List String) (c : List Char) :
    (fs.writeFile p c).readFile p = some c := by
  simp [FS.writeFile, FS.readFile, List.find?]

theorem isFile_writeFile (fs : FS) (p : List String) (c : List Char) :
    (fs.writeFile p c).isFile p = true := by
  rw [FS.isFile, readFile_writeFile]
  rfl

theorem dirs_writeFile (fs : FS) (p : List String) (c : List Char) :
    (fs.writeFile p c).dirs = fs.dirs := rfl

theorem dirs_removeFile (fs : FS) (p : List String) :
    (fs.removeFile p).dirs = fs.dirs := rfl

theorem isDir_writeFile (fs : FS) (p q : List String) (c : List Char) :
    (fs.writeFile p c).isDir q = fs.isDir q := rfl

theorem openWrite_ok {fs : FS} {p : List String} {c : List Char}
    (hnd : fs.isDir p = false)
    (hw : fs.isFile p = true ∨ fs.isDir p.dropLast = true) :
    fs.openWrite p c = .ok (fs.writeFile p c) := by
  rw [FS.openWrite, if_neg (by simp [hnd])]
  rw [if_pos]
  rcases hw with h | h <;> simp [h]

theorem openWrite_dirs {fs fs2 : FS} {p : List String} {c : List Char}
    (h : fs.openWrite p c = .ok fs2) : fs2.dirs = fs.dirs ∧ fs2 = fs.writeFile p c := by
  rw [FS.openWrite] at h
  by_cases h1 : fs.isDir p = true
  · rw [if_pos (by simp [h1])] at h
    cases h
  · rw [if_neg (by simp [h1])] at h
    by_cases h2 : (fs.isFile p || fs.isDir p.dropLast) = true
    · rw [if_pos h2] at h
      cases h
      exact ⟨rfl, rfl⟩
    · rw [if_neg h2] at h
      cases h

theorem isFile_of_readFile {fs : FS} {p : List String} {c : List Char}
    (h : fs.readFile p = some c) : fs.isFile p = true := by
  rw [FS.isFile, h]
  rfl

theorem existsPath_of_readFile {fs : FS} {p : List String} {c : List Char}
    (h : fs.readFile p = some c) : fs.existsPath p = true := by
  rw [FS.existsPath, isFile_of_readFile h]
  rfl

theorem isDir_mkdirs {fs : FS} {p q : List String} (h : fs.isDir q = true) :
    (fs.mkdirs p).isDir q = true := by
  rw [FS.isDir, contains_eq_decide_mem] at h
  rw [FS.isDir, FS.mkdirs, contains_eq_decide_mem]
  simp only [decide_eq_true_eq] at h ⊢
  exact List.mem_append.mpr (Or.inr h)

theorem isDir_rmtree {fs : FS} {t q : List String} (h : fs.isDir q = true)
    (hp : t.isPrefixOf q = false) : (fs.rmtree t).isDir q = true := by
  rw [FS.isDir, contains_eq_decide_mem] at h
  rw [FS.rmtree, FS.isDir, contains_eq_decide_mem]
  simp only [decide_eq_true_eq] at h ⊢
  exact List.mem_filter.mpr ⟨h, by simp [hp]⟩

/-! ## Note-path normalization -/

theorem splitOnSlashAux_no_slash {l : List Char} (h : '/' ∉ l) :
    ∀ acc, splitOnSlashAux acc l = [acc.reverse ++ l] := by
  induction l with
  | nil => intro acc; simp [splitOnSlashAux]
  | cons c cs ih =>
    intro acc
    have hc : c ≠ '/' := fun he => h (by simp [he])
    rw [splitOnSlashAux, if_neg hc, ih (fun hm => h (by simp [hm]))]
    simp

theorem pySplit_single {s : String} (h : '/' ∉ s.data)
    (hne : s ≠ "") (hdot : s ≠ ".") : pySplit s = [s] := by
  rw [pySplit, splitOnSlashAux_no_slash h []]
  simp only [List.reverse_nil, List.nil_append, List.map_cons, List.map_nil]
  have hmk : String.mk s.data = s := rfl
  rw [hmk]
  simp [List.filter, hne, hdot]

theorem pathNorm_append_one {l : List String} {c : String} (hc : c ≠ "..") :
    pathNorm (l ++ [c]) = pathNorm l ++ [c] := by
  simp only [pathNorm, List.foldl_append, List.foldl_cons, List.foldl_nil]
  rw [if_neg hc]

theorem title_txt_ne_empty (title : String) : title ++ ".txt" ≠ "" := by
  intro he
  have := congrArg (fun s => s.data.length) he
  simp at this

theorem title_txt_ne_dot (title : String) : title ++ ".txt" ≠ "." := by
  intro he
  have hl := congrArg (fun s => s.data.length) he
  simp [String.data_append] at hl

theorem title_txt_ne_dotdot (title : String) : title ++ ".txt" ≠ ".." := by
  intro he
  have hl := congrArg (fun s => s.data.length) he
  simp [String.data_append] at hl

theorem title_txt_no_slash {title : String} (h : '/' ∉ title.data) :
    '/' ∉ (title ++ ".txt").data := by
  rw [String.data_append]
  intro hm
  rcases List.mem_append.mp hm with h1 | h1
  · exact h h1
  · simp at h1

/-- Under a normalized current directory and a separator-free title, the
note path is the title file directly inside the current directory. -/
theorem notePath_eq {sh : Shell} {title : String} (h1 : '/' ∉ title.data)
    (h2 : pathNorm sh.cwd = sh.cwd) :
    notePath sh title = sh.cwd ++ [title ++ ".txt"] := by
  rw [notePath, pySplit_single (title_txt_no_slash h1) (title_txt_ne_empty title)
    (title_txt_ne_dot title)]
  rw [pathNorm_append_one (title_txt_ne_dotdot title), h2]

theorem isDir_of_dirs_eq {fs fs2 : FS} {q : List String}
    (h : fs2.dirs = fs.dirs) (h2 : fs.isDir q = true) : fs2.isDir q = true := by
  rw [FS.isDir, h]
  exact h2

theorem addCmd_dirs (sh : Shell) (fs : FS) (args : List String) :
    ((addCmd sh fs args).2).dirs = fs.dirs := by
  unfold addCmd
  repeat' split
  all_goals
    first
      | rfl
      | exact (openWrite_dirs (by assumption)).1

theorem editCmd_dirs (sh : Shell) (fs : FS) (args : List String) :
    ((editCmd sh fs args).2).dirs = fs.dirs := by
  unfold editCmd
  dsimp only
  repeat' split
  all_goals
    first
      | rfl
      | exact (openWrite_dirs (by assumption)).1

theorem doneCmd_dirs (sh : Shell) (fs : FS) (args : List String) :
    ((doneCmd sh fs args).2).dirs = fs.dirs := by
  unfold doneCmd
  dsimp only
  repeat' split
  all_goals
    first
      | rfl
      | exact (openWrite_dirs (by assumption)).1

theorem checkCmd_dirs (sh : Shell) (fs : FS) (args : List String) :
    ((checkCmd sh fs args).2).dirs = fs.dirs := by
  unfold checkCmd
  dsimp only
  repeat' split
  all_goals
    first
      | rfl
      | exact (openWrite_dirs (by assumption)).1

theorem mkdirCmd_isDir (sh : Shell) (fs : FS) (args : List String)
    {q : List String} (h : fs.isDir q = true) :
    ((mkdirCmd sh fs args).2).isDir q = true := by
  unfold mkdirCmd
  repeat' split
  all_goals
    first
      | exact h
      | exact isDir_mkdirs h

/-- Folder-mode `remove` arguments that resolve to the sandbox root
itself — the only input shape able to delete the root. -/
def isRootFolderArgs (sh : Shell) (args : List String) : Bool :=
  match args with
  | f :: t :: _ =>
    (f = "-d" || f = "--folder" || f = "--dir")
      && (match resolvePath sh t with
          | .ok tt => decide (tt = sh.sandbox_root)
          | .error _ => false)
  | _ => false

/-- Token lists on which `run_command` can delete the sandbox root. -/
def isRemoveRootCmd (sh : Shell) (parts : List String) : Bool :=
  match parts with
  | cmd :: args => decide (cmd = "remove") && isRootFolderArgs sh args
  | [] => false

theorem removeCmd_root (sh : Shell) (fs : FS) (args : List String)
    (hroot : fs.isDir sh.sandbox_root = true)
    (hnot : isRootFolderArgs sh args = false) :
    ((removeCmd sh fs args).2).isDir sh.sandbox_root = true := by
  cases args with
  | nil => exact hroot
  | cons a0 rest =>
    unfold removeCmd
    dsimp only
    by_cases hfl : (decide (a0 = "-d") || decide (a0 = "--folder")
        || decide (a0 = "--dir")) = true
    · rw [if_pos hfl]
      cases rest with
      | nil => exact hroot
      | cons t more =>
        dsimp only
        cases hr : resolvePath sh t with
        | error e => exact hroot
        | ok tt =>
          have htne : tt ≠ sh.sandbox_root := by
            unfold isRootFolderArgs at hnot
            dsimp only at hnot
            rw [hr] at hnot
            simp only [hfl, Bool.true_and] at hnot
            simpa using hnot
          dsimp only
          by_cases hex : (fs.existsPath tt && fs.isDir tt) = true
          · rw [if_pos hex]
            exact isDir_rmtree hroot
              (resolved_not_above_root (resolvePath_ok_extends hr).1 htne)
          · rw [if_neg hex]
            exact hroot
    · rw [if_neg hfl]
      by_cases hf : fs.isFile (notePath sh a0) = true
      · rw [if_pos hf]
        exact isDir_of_dirs_eq (dirs_removeFile fs (notePath sh a0)) hroot
      · rw [if_neg hf]
        by_cases hd : fs.isDir (notePath sh a0) = true
        · rw [if_pos hd]
          exact hroot
        · rw [if_neg hd]
          exact hroot

/-- C8: every input line whose command token is not `cd` leaves the
session state unchanged: sandbox root, current directory and the identity
strings are the same after `run_command` as before (only the `exit`
handler touches the session at all, and it only clears the running flag). -/
theorem C8_frame (sh : Shell) (fs : FS) (parts : List String)
    (h : parts.head? ≠ some "cd") :
    ((run_command sh fs parts).2.2).sandbox_root = sh.sandbox_root ∧
    ((run_command sh fs parts).2.2).cwd = sh.cwd ∧
    ((run_command sh fs parts).2.2).user = sh.user ∧
    ((run_command sh fs parts).2.2).host = sh.host := by
  cases parts with
  | nil => exact ⟨rfl, rfl, rfl, rfl⟩
  | cons cmd args =>
    have hne : ¬ cmd = "cd" := fun he => h (by simp [he])
    unfold run_command
    dsimp only
    by_cases h1 : cmd = "help"
    · rw [if_pos h1]
      exact ⟨rfl, rfl, rfl, rfl⟩
    rw [if_neg h1]
    by_cases h2 : cmd = "exit"
    · rw [if_pos h2]
      exact ⟨rfl, rfl, rfl, rfl⟩
    rw [if_neg h2]
    by_cases h3 : cmd = "ls"
    · rw [if_pos h3]
      exact ⟨rfl, rfl, rfl, rfl⟩
    rw [if_neg h3]
    by_cases h4 : cmd = "pwd"
    · rw [if_pos h4]
      exact ⟨rfl, rfl, rfl, rfl⟩
    rw [if_neg h4]
    by_cases h5 : cmd = "cd"
    · rw [if_pos h5]
      exact absurd h5 hne
    rw [if_neg h5]
    by_cases h6 : cmd = "add"
    · rw [if_pos h6]
      exact ⟨rfl, rfl, rfl, rfl⟩
    rw [if_neg h6]
    by_cases h7 : cmd = "edit"
    · rw [if_pos h7]
      exact ⟨rfl, rfl, rfl, rfl⟩
    rw [if_neg h7]
    by_cases h8 : cmd = "remove"
    · rw [if_pos h8]
      exact ⟨rfl, rfl, rfl, rfl⟩
    rw [if_neg h8]
    by_cases h9 : cmd = "done"
    · rw [if_pos h9]
      exact ⟨rfl, rfl, rfl, rfl⟩
    rw [if_neg h9]
    by_cases h10 : cmd = "check"
    · rw [if_pos h10]
      exact ⟨rfl, rfl, rfl, rfl⟩
    rw [if_neg h10]
    by_cases h11 : cmd = "show"
    · rw [if_pos h11]
      exact ⟨rfl, rfl, rfl, rfl⟩
    rw [if_neg h11]
    by_cases h12 : cmd = "list"
    · rw [if_pos h12]
      exact ⟨rfl, rfl, rfl, rfl⟩
    rw [if_neg h12]
    by_cases h13 : cmd = "mkdir"
    · rw [if_pos h13]
      exact ⟨rfl, rfl, rfl, rfl⟩
    rw [if_neg h13]
    by_cases h14 : cmd = "clear"
    · rw [if_pos h14]
      exact ⟨rfl, rfl, rfl, rfl⟩
    rw [if_neg h14]
    by_cases h15 : cmd = "send"
    · rw [if_pos h15]
      exact ⟨rfl, rfl, rfl, rfl⟩
    rw [if_neg h15]
    exact ⟨rfl, rfl, rfl, rfl⟩

/-- Concrete session used by witnesses and counterexamples: the sandbox
root is `/home/notes` and the session starts there. -/
def demoShell : Shell :=
  { sandbox_root := ["home", "notes"], cwd := ["home", "notes"],
    user := "u", host := "h", running := true }

/-- Concrete empty filesystem with the sandbox root present. -/
def demoFS : FS := { files := [], dirs := [["home"], ["home", "notes"]] }

/-- C8 witness: a concrete non-`cd` command (a `done` call) leaves the
session fields unchanged. -/
theorem C8_frame_witness :
    (["done", "t"] : List String).head? ≠ some "cd" ∧
    ((run_command demoShell demoFS ["done", "t"]).2.2).sandbox_root
      = demoShell.sandbox_root :=
  ⟨by decide, (C8_frame demoShell demoFS ["done", "t"] (by decide)).1⟩

/-- C2 (amended): the sandbox root directory survives every command except
a folder-mode `remove` whose path argument resolves to the root itself
(`isRemoveRootCmd`): for every other input line, if the root exists before
`run_command` it still exists afterwards. -/
theorem C2_root_survives (sh : Shell) (fs : FS) (parts : List String)
    (hroot : fs.isDir sh.sandbox_root = true)
    (hnot : isRemoveRootCmd sh parts = false) :
    ((run_command sh fs parts).2.1).isDir sh.sandbox_root = true := by
  cases parts with
  | nil => exact hroot
  | cons cmd args =>
    unfold run_command
    dsimp only
    by_cases h1 : cmd = "help"
    · rw [if_pos h1]
      exact hroot
    rw [if_neg h1]
    by_cases h2 : cmd = "exit"
    · rw [if_pos h2]
      exact hroot
    rw [if_neg h2]
    by_cases h3 : cmd = "ls"
    · rw [if_pos h3]
      exact hroot
    rw [if_neg h3]
    by_cases h4 : cmd = "pwd"
    · rw [if_pos h4]
      exact hroot
    rw [if_neg h4]
    by_cases h5 : cmd = "cd"
    · rw [if_pos h5]
      exact hroot
    rw [if_neg h5]
    by_cases h6 : cmd = "add"
    · rw [if_pos h6]
      exact isDir_of_dirs_eq (addCmd_dirs sh fs args) hroot
    rw [if_neg h6]
    by_cases h7 : cmd = "edit"
    · rw [if_pos h7]
      exact isDir_of_dirs_eq (editCmd_dirs sh fs args) hroot
    rw [if_neg h7]
    by_cases h8 : cmd = "remove"
    · rw [if_pos h8]
      refine removeCmd_root sh fs args hroot ?_
      unfold isRemoveRootCmd at hnot
      dsimp only at hnot
      rw [h8] at hnot
      simpa using hnot
    rw [if_neg h8]
    by_cases h9 : cmd = "done"
    · rw [if_pos h9]
      exact isDir_of_dirs_eq (doneCmd_dirs sh fs args) hroot
    rw [if_neg h9]
    by_cases h10 : cmd = "check"
    · rw [if_pos h10]
      exact isDir_of_dirs_eq (checkCmd_dirs sh fs args) hroot
    rw [if_neg h10]
    by_cases h11 : cmd = "show"
    · rw [if_pos h11]
      exact hroot
    rw [if_neg h11]
    by_cases h12 : cmd = "list"
    · rw [if_pos h12]
      exact hroot
    rw [if_neg h12]
    by_cases h13 : cmd = "mkdir"
    · rw [if_pos h13]
      exact mkdirCmd_isDir sh fs args hroot
    rw [if_neg h13]
    by_cases h14 : cmd = "clear"
    · rw [if_pos h14]
      exact hroot
    rw [if_neg h14]
    by_cases h15 : cmd = "send"
    · rw [if_pos h15]
      exact hroot
    rw [if_neg h15]
    exact hroot

/-- C2 is refuted as literally stated: `remove -d .` issued while the
current directory is the sandbox root resolves to the root itself, passes
the containment check, and `shutil.rmtree` deletes the sandbox root. -/
theorem C2_counterexample :
    demoFS.isDir demoShell.sandbox_root = true ∧
    (run_command demoShell demoFS ["remove", "-d", "."]).1
      = "Folder '.' and its content deleted." ∧
    ((run_command demoShell demoFS ["remove", "-d", "."]).2.1).isDir
      demoShell.sandbox_root = false := by
  decide

/-- C2 witness: a concrete non-`remove` command preserves the root. -/
theorem C2_root_survives_witness :
    demoFS.isDir demoShell.sandbox_root = true ∧
    isRemoveRootCmd demoShell ["add", "t", "x"] = false ∧
    ((run_command demoShell demoFS ["add", "t", "x"]).2.1).isDir
      demoShell.sandbox_root = true :=
  ⟨by decide, by decide, C2_root_survives demoShell demoFS ["add", "t", "x"]
    (by decide) (by decide)⟩

/-- C1 (amended): only the resolver-guarded commands (`ls`, `cd`, `mkdir`,
`remove -d`) check sandbox containment, and what they enforce is Python's
string `startswith` on the rendered paths: an argument (other than the
`cd` home shortcut `~`) whose normalized target fails that check is
answered with the SandboxViolation message, leaving filesystem and session
unchanged, and every successfully resolved target's rendered path extends
the sandbox root's rendered string. The note operations taking a title
(`add`, `edit`, `remove`, `done`, `check`, `show`) perform no check at all
(see the counterexample, where `add` writes outside the root). -/
theorem C1_sandbox_guard (sh : Shell) (fs : FS) (p : String) (hp : p ≠ "~")
    (h : (strOf sh.sandbox_root).isPrefixOf (strOf (resolveTarget sh p))
      = false) :
    resolvePath sh p = .error sandboxViolationMsg ∧
    run_command sh fs ["ls", p] = (sandboxViolationMsg, fs, sh) ∧
    run_command sh fs ["cd", p] = (sandboxViolationMsg, fs, sh) ∧
    run_command sh fs ["mkdir", p] = (sandboxViolationMsg, fs, sh) ∧
    run_command sh fs ["remove", "-d", p] = (sandboxViolationMsg, fs, sh) ∧
    (∀ (q : String) (t : List String), resolvePath sh q = .ok t →
      (strOf sh.sandbox_root).isPrefixOf (strOf t) = true) := by
  have herr := resolvePath_error h
  refine ⟨herr, ?_, ?_, ?_, ?_, fun q t hq => (resolvePath_ok_extends hq).1⟩
  · have e1 : run_command sh fs ["ls", p] = (lsCmd sh fs [p], fs, sh) := rfl
    rw [e1]
    unfold lsCmd
    dsimp only
    rw [herr]
  · have e2 : run_command sh fs ["cd", p]
        = ((cdCmd sh fs [p]).1, fs, (cdCmd sh fs [p]).2) := rfl
    rw [e2]
    unfold cdCmd
    dsimp only
    rw [if_neg hp, herr]
  · have e3 : run_command sh fs ["mkdir", p]
        = ((mkdirCmd sh fs [p]).1, (mkdirCmd sh fs [p]).2, sh) := rfl
    rw [e3]
    unfold mkdirCmd
    dsimp only
    rw [herr]
  · have e4 : run_command sh fs ["remove", "-d", p]
        = ((removeCmd sh fs ["-d", p]).1, (removeCmd sh fs ["-d", p]).2, sh) :=
      rfl
    rw [e4]
    unfold removeCmd
    dsimp only
    rw [if_pos (by decide), herr]

/-- C1 witness: `cd ../..` from the sandbox root is rejected with the
SandboxViolation message and changes nothing. -/
theorem C1_sandbox_guard_witness :
    (("../.." : String) ≠ "~") ∧
    (strOf demoShell.sandbox_root).isPrefixOf
      (strOf (resolveTarget demoShell "../..")) = false ∧
    run_command demoShell demoFS ["cd", "../.."]
      = (sandboxViolationMsg, demoFS, demoShell) :=
  ⟨by decide, by decide,
    (C1_sandbox_guard demoShell demoFS "../.." (by decide) (by decide)).2.2.1⟩

/-- C1 is refuted as stated: the title-taking note operations never call
the resolver, so `add` with a title beginning `../` writes a file outside
the sandbox root and reports success instead of a SandboxViolation. -/
theorem C1_counterexample :
    (run_command demoShell demoFS ["add", "../evil", "boo"]).1
      = "Note '../evil' created." ∧
    ((run_command demoShell demoFS ["add", "../evil", "boo"]).2.1).isFile
      ["home", "evil.txt"] = true ∧
    (demoShell.sandbox_root).isPrefixOf ["home", "evil.txt"] = false := by
  decide

/-- C10: `ls` with no argument while the session's current directory no
longer exists as a directory returns the IndexError message
"list index out of range" (from evaluating `args[0]` inside the error
branch) and modifies neither filesystem nor session. -/
theorem C10_ls_stale_cwd (sh : Shell) (fs : FS)
    (h : fs.isDir sh.cwd = false) :
    run_command sh fs ["ls"] = ("list index out of range", fs, sh) := by
  have e1 : run_command sh fs ["ls"] = (lsCmd sh fs [], fs, sh) := rfl
  rw [e1]
  unfold lsCmd
  dsimp only
  rw [if_pos (by simp [h])]

/-- C10 witness: after the current directory's folder is gone, `ls`
reports the IndexError message. -/
def staleShell : Shell := { demoShell with cwd := ["home", "notes", "gone"] }

theorem C10_ls_stale_cwd_witness :
    demoFS.isDir staleShell.cwd = false ∧
    run_command staleShell demoFS ["ls"]
      = ("list index out of range", demoFS, staleShell) :=
  ⟨by decide, C10_ls_stale_cwd staleShell demoFS (by decide)⟩

/-- C3: for every separator-free title `t` and content string `C`, running
`add t C` and then `show t` in the same directory outputs the title header
followed by exactly `C` (the round-trip property), provided the current
directory exists and no directory shadows the note file. -/
theorem C3_add_show_roundtrip (sh : Shell) (fs : FS) (t C : String)
    (h1 : '/' ∉ t.data) (h2 : pathNorm sh.cwd = sh.cwd)
    (h3 : fs.isDir sh.cwd = true)
    (h4 : fs.isDir (sh.cwd ++ [t ++ ".txt"]) = false) :
    (run_command sh fs ["add", t, C]).1 = "Note '" ++ t ++ "' created." ∧
    (run_command (run_command sh fs ["add", t, C]).2.2
        (run_command sh fs ["add", t, C]).2.1 ["show", t]).1
      = "=== " ++ t ++ " ===\n" ++ C := by
  have np : notePath sh t = sh.cwd ++ [t ++ ".txt"] := notePath_eq h1 h2
  have hparent : (sh.cwd ++ [t ++ ".txt"]).dropLast = sh.cwd :=
    List.dropLast_concat
  have hw : fs.openWrite (sh.cwd ++ [t ++ ".txt"]) C.data
      = .ok (fs.writeFile (sh.cwd ++ [t ++ ".txt"]) C.data) :=
    openWrite_ok h4 (Or.inr (by rw [hparent]; exact h3))
  have hadd : addCmd sh fs [t, C]
      = ("Note '" ++ t ++ "' created.",
          fs.writeFile (sh.cwd ++ [t ++ ".txt"]) C.data) := by
    unfold addCmd
    dsimp only
    rw [show String.intercalate " " [C] = C from rfl, np, hw]
    rfl
  have e1 : run_command sh fs ["add", t, C]
      = ((addCmd sh fs [t, C]).1, (addCmd sh fs [t, C]).2, sh) := rfl
  have e2 : ∀ fs2, run_command sh fs2 ["show", t]
      = (showCmd sh fs2 [t], fs2, sh) := fun fs2 => rfl
  rw [e1, hadd]
  refine ⟨rfl, ?_⟩
  dsimp only
  rw [e2]
  unfold showCmd
  dsimp only
  rw [np, readFile_writeFile]

/-- C3 witness: the round trip at a concrete title and content. -/
theorem C3_add_show_roundtrip_witness :
    (run_command (run_command demoShell demoFS ["add", "t", "hello world"]).2.2
        (run_command demoShell demoFS ["add", "t", "hello world"]).2.1
        ["show", "t"]).1
      = "=== t ===\nhello world" :=
  (C3_add_show_roundtrip demoShell demoFS "t" "hello world" (by decide)
    (by decide) (by decide) (by decide)).2

/-- C9 (amended): `edit` without `--replace` appends the joined text to the
existing content, inserting a newline separator exactly when the existing
content is nonempty and does not already end in a newline (Python's
`if existing and not existing.endswith("\n")`); with `--replace` anywhere
among the arguments the content is overwritten by the joined remaining
text. -/
theorem C9_edit_modes (sh : Shell) (fs : FS) (t a : String) (as : List String)
    (E : List Char)
    (h1 : '/' ∉ t.data) (h2 : pathNorm sh.cwd = sh.cwd)
    (hE : fs.readFile (sh.cwd ++ [t ++ ".txt"]) = some E)
    (hnd : fs.isDir (sh.cwd ++ [t ++ ".txt"]) = false) :
    ((t :: a :: as).contains "--replace" = false →
      (run_command sh fs ("edit" :: t :: a :: as)).1
        = "Text added to note '" ++ t ++ "'." ∧
      ((run_command sh fs ("edit" :: t :: a :: as)).2.1).readFile
          (sh.cwd ++ [t ++ ".txt"])
        = some (if (!(E.isEmpty) && !(endsNL E)) = true
            then E ++ '\n' :: (String.intercalate " " (a :: as)).data
            else E ++ (String.intercalate " " (a :: as)).data)) ∧
    ((t :: a :: as).contains "--replace" = true →
      (run_command sh fs ("edit" :: t :: a :: as)).1
        = "Note '" ++ t ++ "' replaced." ∧
      ((run_command sh fs ("edit" :: t :: a :: as)).2.1).readFile
          (sh.cwd ++ [t ++ ".txt"])
        = some (String.intercalate " "
            ((a :: as).filter (fun x => x ≠ "--replace"))).data) := by
  have np : notePath sh t = sh.cwd ++ [t ++ ".txt"] := notePath_eq h1 h2
  have hex : fs.existsPath (sh.cwd ++ [t ++ ".txt"]) = true :=
    existsPath_of_readFile hE
  have hf : fs.isFile (sh.cwd ++ [t ++ ".txt"]) = true := isFile_of_readFile hE
  have hne1 : run_command sh fs ("edit" :: t :: a :: as)
      = ((editCmd sh fs (t :: a :: as)).1, (editCmd sh fs (t :: a :: as)).2,
          sh) := rfl
  constructor
  · intro hrm
    rw [hne1]
    unfold editCmd
    dsimp only
    rw [np]
    simp only [hex, hrm, Bool.not_true, Bool.false_eq_true, if_false]
    rw [hE]
    dsimp only
    by_cases hsep : (!(E.isEmpty) && !(endsNL E)) = true
    · rw [if_pos hsep, openWrite_ok hnd (Or.inl hf)]
      exact ⟨rfl, readFile_writeFile _ _ _⟩
    · rw [if_neg hsep, openWrite_ok hnd (Or.inl hf)]
      exact ⟨rfl, readFile_writeFile _ _ _⟩
  · intro hrm
    rw [hne1]
    unfold editCmd
    dsimp only
    rw [np]
    simp only [hex, hrm, Bool.not_true, Bool.false_eq_true, if_false, if_true]
    rw [openWrite_ok hnd (Or.inl hf)]
    exact ⟨rfl, readFile_writeFile _ _ _⟩

/-- Concrete filesystem with an empty note, for the C9 counterexample. -/
def fsEmptyNote : FS :=
  { files := [(["home", "notes", "e.txt"], [])],
    dirs := [["home"], ["home", "notes"]] }

/-- C9 is refuted as literally stated: appending to a note whose content is
empty inserts no newline separator, although empty content does not end in
a newline. -/
theorem C9_counterexample :
    fsEmptyNote.readFile ["home", "notes", "e.txt"] = some [] ∧
    ((run_command demoShell fsEmptyNote ["edit", "e", "x"]).2.1).readFile
      ["home", "notes", "e.txt"] = some "x".data ∧
    some ("x".data) ≠ some ('\n' :: "x".data) := by
  decide

/-- C9 witness: appending to nonempty content without a trailing newline
inserts the separator; replacing overwrites. -/
theorem C9_edit_modes_witness :
    (("e" :: "x" :: []).contains "--replace" = false) ∧
    ((run_command demoShell
        { files := [(["home", "notes", "e.txt"], "ab".data)],
          dirs := [["home"], ["home", "notes"]] }
        ["edit", "e", "x"]).2.1).readFile ["home", "notes", "e.txt"]
      = some "ab\nx".data :=
  ⟨by decide, by
    have h := (C9_edit_modes demoShell
      { files := [(["home", "notes", "e.txt"], "ab".data)],
        dirs := [["home"], ["home", "notes"]] }
      "e" "x" [] "ab".data (by decide) (by decide) (by decide) (by decide)).1
      (by decide)
    exact h.2⟩

/-- C6: for every note whose content lacks the done marker, two consecutive
`done` invocations answer "marked as done" then "already done", the second
changes nothing, and the final content is the old content with trailing
whitespace trimmed followed by the marker on its own line — containing the
marker exactly once. -/
theorem C6_done_idempotent (sh : Shell) (fs : FS) (t : String) (E : List Char)
    (h1 : '/' ∉ t.data) (h2 : pathNorm sh.cwd = sh.cwd)
    (hE : fs.readFile (sh.cwd ++ [t ++ ".txt"]) = some E)
    (hnd : fs.isDir (sh.cwd ++ [t ++ ".txt"]) = false)
    (hdone : containsSub doneMarker E = false) :
    (run_command sh fs ["done", t]).1 = "Note '" ++ t ++ "' marked as done." ∧
    (run_command (run_command sh fs ["done", t]).2.2
        (run_command sh fs ["done", t]).2.1 ["done", t]).1
      = "Note '" ++ t ++ "' is already done." ∧
    (run_command (run_command sh fs ["done", t]).2.2
        (run_command sh fs ["done", t]).2.1 ["done", t]).2.1
      = (run_command sh fs ["done", t]).2.1 ∧
    ((run_command sh fs ["done", t]).2.1).readFile (sh.cwd ++ [t ++ ".txt"])
      = some (rstrip E ++ '\n' :: doneMarker ++ [ '\n' ]) ∧
    countSub doneMarker (rstrip E ++ '\n' :: doneMarker ++ [ '\n' ]) = 1 := by
  have np : notePath sh t = sh.cwd ++ [t ++ ".txt"] := notePath_eq h1 h2
  have hex : fs.existsPath (sh.cwd ++ [t ++ ".txt"]) = true :=
    existsPath_of_readFile hE
  have hf : fs.isFile (sh.cwd ++ [t ++ ".txt"]) = true := isFile_of_readFile hE
  have e1 : ∀ fsx, run_command sh fsx ["done", t]
      = ((doneCmd sh fsx [t]).1, (doneCmd sh fsx [t]).2, sh) := fun _ => rfl
  have hd1 : doneCmd sh fs [t]
      = ("Note '" ++ t ++ "' marked as done.",
          fs.writeFile (sh.cwd ++ [t ++ ".txt"])
            (rstrip E ++ '\n' :: doneMarker ++ [ '\n' ])) := by
    unfold doneCmd
    dsimp only
    rw [np, if_pos hex, hE]
    dsimp only
    rw [if_pos (show (!(containsSub doneMarker E)) = true by
      rw [hdone]
      rfl)]
    rw [openWrite_ok hnd (Or.inl hf)]
    rfl
  set fs2 := fs.writeFile (sh.cwd ++ [t ++ ".txt"])
      (rstrip E ++ '\n' :: doneMarker ++ [ '\n' ]) with hfs2
  have hE2 : fs2.readFile (sh.cwd ++ [t ++ ".txt"])
      = some (rstrip E ++ '\n' :: doneMarker ++ [ '\n' ]) :=
    readFile_writeFile _ _ _
  have hd2 : doneCmd sh fs2 [t] = ("Note '" ++ t ++ "' is already done.", fs2) := by
    unfold doneCmd
    dsimp only
    rw [np, if_pos (existsPath_of_readFile hE2), hE2]
    dsimp only
    rw [if_neg (show ¬ (!(containsSub doneMarker
        (rstrip E ++ '\n' :: doneMarker ++ [ '\n' ]))) = true by
      rw [containsSub_done E]
      decide)]
    rfl
  rw [e1 fs, hd1]
  dsimp only
  rw [e1 fs2, hd2]
  exact ⟨rfl, rfl, rfl, hE2, countSub_done hdone⟩

/-- C6 witness: the double-`done` behavior at a concrete note. -/
theorem C6_done_idempotent_witness :
    (run_command demoShell
        { files := [(["home", "notes", "n.txt"], "hello ".data)],
          dirs := [["home"], ["home", "notes"]] }
        ["done", "n"]).1 = "Note 'n' marked as done." ∧
    countSub doneMarker
      (rstrip "hello ".data ++ '\n' :: doneMarker ++ [ '\n' ]) = 1 := by
  have h := C6_done_idempotent demoShell
    { files := [(["home", "notes", "n.txt"], "hello ".data)],
      dirs := [["home"], ["home", "notes"]] }
    "n" "hello ".data (by decide) (by decide) (by decide) (by decide)
    (by decide)
  exact ⟨h.1, h.2.2.2.2⟩

/-- C5 (amended): one `check` invocation on a marker-carrying line toggles
exactly one marker occurrence, but unchecked markers take priority over
position: the toggled occurrence is the first `[ ]` of the line when the
line contains one, and only otherwise the first `[x]` (not the first
marker occurrence of either kind). -/
theorem C5_toggle_priority (l : List Char) :
    (containsSub uncheckedPat l = true →
      ∃ a b, l = a ++ uncheckedPat ++ b ∧
        toggleLine l = some (a ++ checkedPat ++ b, true) ∧
        ∀ a2 b2, l = a2 ++ uncheckedPat ++ b2 → a.length ≤ a2.length) ∧
    (containsSub uncheckedPat l = false → containsSub checkedPat l = true →
      ∃ a b, l = a ++ checkedPat ++ b ∧
        toggleLine l = some (a ++ uncheckedPat ++ b, false) ∧
        ∀ a2 b2, l = a2 ++ checkedPat ++ b2 → a.length ≤ a2.length) :=
  ⟨fun h => toggleLine_unchecked h, fun hu hx => toggleLine_checked hu hx⟩

/-- C5 witness: on a line with a single unchecked marker, the toggle
rewrites exactly that occurrence. -/
theorem C5_toggle_priority_witness :
    containsSub uncheckedPat "a [ ] b".data = true ∧
    "a [ ] b".data = "a ".data ++ uncheckedPat ++ " b".data ∧
    toggleLine "a [ ] b".data = some ("a ".data ++ checkedPat ++ " b".data, true) := by
  have h := (C5_toggle_priority "a [ ] b".data).1 (by decide)
  exact ⟨by decide, by decide, by decide⟩

/-- Concrete note whose first line has a checked marker before an unchecked
one, for the C4 and C5 counterexamples. -/
def fsTodo : FS :=
  { files := [(["home", "notes", "todo.txt"], "[x] a [ ]".data)],
    dirs := [["home"], ["home", "notes"]] }

/-- A notes tree holding `milk.txt` whose single line `[ ] milk\n` has one
unchecked marker and nothing after it, so it satisfies `safeUnchecked`. -/
def fsMilk : FS :=
  { files := [(["home", "notes", "milk.txt"], "[ ] milk\n".data)],
    dirs := [["home"], ["home", "notes"]] }

/-- C5 is refuted as stated: on the line `[x] a [ ]` the first marker
occurrence is the checked one at position 0, yet `check` toggles the later
unchecked marker, producing `[x] a [x]` rather than `[ ] a [ ]`. -/
theorem C5_counterexample :
    "[x] a [ ]".data = [] ++ checkedPat ++ " a [ ]".data ∧
    ((run_command demoShell fsTodo ["check", "todo", "1"]).2.1).readFile
      ["home", "notes", "todo.txt"] = some "[x] a [x]".data ∧
    ((run_command demoShell fsTodo ["check", "todo", "1"]).2.1).readFile
      ["home", "notes", "todo.txt"] ≠ some "[ ] a [ ]".data := by
  decide

theorem checkCmd_eval {sh : Shell} {fs : FS} {t : String} {numArgs : List String}
    {nums : List Int} {s : List Char}
    (h1 : '/' ∉ t.data) (h2 : pathNorm sh.cwd = sh.cwd)
    (hE : fs.readFile (sh.cwd ++ [t ++ ".txt"]) = some s)
    (hargs : numArgs ≠ [])
    (hnums : parseAll numArgs = some nums) :
    checkCmd sh fs (t :: numArgs)
      = (if (nums.foldl checkStep (readlines s, [], false)).2.2 = true then
           match fs.openWrite (sh.cwd ++ [t ++ ".txt"])
               (joinLines (nums.foldl checkStep (readlines s, [], false)).1) with
           | .ok fs2 => (String.intercalate "\n"
               (nums.foldl checkStep (readlines s, [], false)).2.1, fs2)
           | .error e => (e, fs)
         else (String.intercalate "\n"
             (nums.foldl checkStep (readlines s, [], false)).2.1, fs)) := by
  cases numArgs with
  | nil => exact absurd rfl hargs
  | cons a rest =>
    unfold checkCmd
    dsimp only
    rw [hnums]
    dsimp only
    rw [notePath_eq h1 h2]
    rw [if_neg (show ¬ (!(fs.existsPath (sh.cwd ++ [t ++ ".txt"]))) = true by
      rw [existsPath_of_readFile hE]
      decide)]
    rw [hE]

/-- C7: a non-integer line-number argument aborts the whole `check` command
with the single "must be integers" message before anything is read or
written; otherwise the file is rewritten (as one write of the final line
list) exactly when some requested line number addresses, in range, a line
carrying a marker — each such toggle genuinely changes its line
(`toggleLine_facts`) — and is left untouched otherwise. -/
theorem C7_check_atomic (sh : Shell) (fs : FS) (t : String)
    (numArgs : List String) (s : List Char)
    (h1 : '/' ∉ t.data) (h2 : pathNorm sh.cwd = sh.cwd)
    (hE : fs.readFile (sh.cwd ++ [t ++ ".txt"]) = some s)
    (hnd : fs.isDir (sh.cwd ++ [t ++ ".txt"]) = false)
    (hargs : numArgs ≠ []) :
    (parseAll numArgs = none ↔ ∃ b ∈ numArgs, pyInt b = none) ∧
    (parseAll numArgs = none →
      run_command sh fs ("check" :: t :: numArgs)
        = ("All line numbers must be integers.", fs, sh)) ∧
    (∀ nums, parseAll numArgs = some nums →
      ((nums.any (fun n => togglableAt (readlines s) n)) = false →
        (run_command sh fs ("check" :: t :: numArgs)).2.1 = fs) ∧
      ((nums.any (fun n => togglableAt (readlines s) n)) = true →
        ∃ L2, L2.length = (readlines s).length ∧
          (run_command sh fs ("check" :: t :: numArgs)).2.1
            = fs.writeFile (sh.cwd ++ [t ++ ".txt"]) (joinLines L2))) := by
  have e0 : run_command sh fs ("check" :: t :: numArgs)
      = ((checkCmd sh fs (t :: numArgs)).1, (checkCmd sh fs (t :: numArgs)).2,
          sh) := rfl
  refine ⟨parseAll_eq_none_iff numArgs, ?_, ?_⟩
  · intro hparse
    cases numArgs with
    | nil => exact absurd rfl hargs
    | cons a rest =>
      rw [e0]
      unfold checkCmd
      dsimp only
      rw [hparse]
  · intro nums hnums
    have hfold := checkFold_invariant (readlines s) nums (readlines s) [] false
      rfl (fun i => rfl)
    have heval := checkCmd_eval h1 h2 hE hargs hnums
    obtain ⟨g1, g2, g3⟩ := hfold
    simp only [Bool.false_or] at g3
    constructor
    · intro htog
      rw [e0]
      dsimp only
      rw [heval, g3, htog]
      rw [if_neg (by decide)]
    · intro htog
      refine ⟨(nums.foldl checkStep (readlines s, [], false)).1, g1, ?_⟩
      rw [e0]
      dsimp only
      rw [heval, g3, htog, if_pos rfl]
      rw [openWrite_ok hnd (Or.inl (isFile_of_readFile hE))]

/-- C7 witness: one malformed line number aborts the whole invocation with
the single parse-error message and no filesystem change. -/
theorem C7_check_atomic_witness :
    run_command demoShell fsTodo ["check", "todo", "1", "oops"]
      = ("All line numbers must be integers.", fsTodo, demoShell) := by
  have h := C7_check_atomic demoShell fsTodo "todo" ["1", "oops"]
    "[x] a [ ]".data (by decide) (by decide) (by decide) (by decide) (by decide)
  exact h.2.1 (by decide)

/-- A checkbox toggle that a second toggle exactly undoes propagates through
whole `check <title> <n>` invocations: running the command twice through
`run_command` leaves the note file with its original contents. -/
theorem check_single_restore (sh : Shell) (fs : FS) (t na : String) (N : Int)
    (s l1 : List Char) (b1 b2 : Bool)
    (h1 : '/' ∉ t.data) (h2 : pathNorm sh.cwd = sh.cwd)
    (hE : fs.readFile (sh.cwd ++ [t ++ ".txt"]) = some s)
    (hnd : fs.isDir (sh.cwd ++ [t ++ ".txt"]) = false)
    (hN : pyInt na = some N)
    (hin1 : 1 ≤ N) (hin2 : N ≤ ((readlines s).length : Int))
    (htl1 : toggleLine ((readlines s).getD (N - 1).toNat []) = some (l1, b1))
    (htl2 : toggleLine l1 = some ((readlines s).getD (N - 1).toNat [], b2)) :
    ((run_command (run_command sh fs ["check", t, na]).2.2
        (run_command sh fs ["check", t, na]).2.1 ["check", t, na]).2.1).readFile
      (sh.cwd ++ [t ++ ".txt"]) = some s := by
  have hparse : parseAll [na] = some [N] := by simp [parseAll, hN]
  have hwfL : wfLines (readlines s) = true := wf_readlines s
  have hidx : (N - 1).toNat < (readlines s).length := by omega
  have hout : (decide (N < 1) || decide (N > ((readlines s).length : Int)))
      = false := by
    simp only [Bool.or_eq_false_iff, decide_eq_false_iff_not]
    omega
  have hstep1 : checkStep (readlines s, [], false) N
      = ((readlines s).set (N - 1).toNat l1,
         [if b1 then checkedMsg N else uncheckedMsg N], true) :=
    checkStep_toggle hout htl1
  have heval1 := checkCmd_eval h1 h2 hE (by simp) hparse
  rw [show ([N].foldl checkStep (readlines s, ([] : List String), false))
      = checkStep (readlines s, [], false) N from rfl, hstep1] at heval1
  dsimp only at heval1
  rw [if_pos rfl] at heval1
  rw [openWrite_ok hnd (Or.inl (isFile_of_readFile hE))] at heval1
  dsimp only at heval1
  have hlwf : lineWF ((readlines s).getD (N - 1).toNat []) = true :=
    lineWF_of_wfLines hwfL _ (getD_mem _ _ _ hidx)
  have htwf := toggleLine_lineWF htl1 hlwf
  have hwfL1 : wfLines ((readlines s).set (N - 1).toNat l1) = true :=
    wfLines_set hwfL htwf.1 htwf.2
  have hE2 : (fs.writeFile (sh.cwd ++ [t ++ ".txt"])
        (joinLines ((readlines s).set (N - 1).toNat l1))).readFile
      (sh.cwd ++ [t ++ ".txt"])
      = some (joinLines ((readlines s).set (N - 1).toNat l1)) :=
    readFile_writeFile _ _ _
  have hnd2 : (fs.writeFile (sh.cwd ++ [t ++ ".txt"])
        (joinLines ((readlines s).set (N - 1).toNat l1))).isDir
      (sh.cwd ++ [t ++ ".txt"]) = false := by
    rw [isDir_writeFile]
    exact hnd
  have heval2 := checkCmd_eval h1 h2 hE2 (by simp) hparse
  rw [readlines_joinLines hwfL1] at heval2
  have hout2 : (decide (N < 1)
      || decide (N > ((((readlines s).set (N - 1).toNat l1)).length : Int)))
      = false := by
    rw [List.length_set]
    exact hout
  have htl2b : toggleLine (((readlines s).set (N - 1).toNat l1).getD
        (N - 1).toNat [])
      = some ((readlines s).getD (N - 1).toNat [], b2) := by
    rw [getD_set_self _ _ _ _ hidx]
    exact htl2
  have hstep2 : checkStep ((readlines s).set (N - 1).toNat l1, [], false) N
      = (((readlines s).set (N - 1).toNat l1).set (N - 1).toNat
           ((readlines s).getD (N - 1).toNat []),
         [if b2 then checkedMsg N else uncheckedMsg N], true) :=
    checkStep_toggle hout2 htl2b
  rw [List.set_set, set_getD_self _ _ _ hidx] at hstep2
  rw [show ([N].foldl checkStep ((readlines s).set (N - 1).toNat l1,
        ([] : List String), false))
      = checkStep ((readlines s).set (N - 1).toNat l1, [], false) N from rfl,
    hstep2] at heval2
  dsimp only at heval2
  rw [if_pos rfl] at heval2
  rw [joinLines_readlines s] at heval2
  rw [openWrite_ok hnd2 (Or.inl (isFile_of_readFile hE2))] at heval2
  dsimp only at heval2
  have e0 : ∀ (sh2 : Shell) (fs2 : FS), run_command sh2 fs2 ["check", t, na]
      = ((checkCmd sh2 fs2 [t, na]).1, (checkCmd sh2 fs2 [t, na]).2, sh2) :=
    fun _ _ => rfl
  rw [e0 sh fs, heval1]
  dsimp only
  rw [e0, heval2]
  exact readFile_writeFile _ _ _

/-- C4: running `check T N` twice restores line `N` when the addressed line
either satisfies `safeUnchecked` (its first marker is an unchecked one and
no further unchecked marker follows) or carries checked markers only; an
in-range line with no marker makes both calls report the same
"not a todo item" message and leaves everything unchanged, and an
out-of-range `N` makes both calls report the same out-of-range message and
leaves everything unchanged. Toggling is NOT an involution for every
marker-bearing line: a line with a checked marker before its first
unchecked one comes back different (see the counterexample). -/
theorem C4_check_twice (sh : Shell) (fs : FS) (t na : String) (N : Int)
    (s : List Char)
    (h1 : '/' ∉ t.data) (h2 : pathNorm sh.cwd = sh.cwd)
    (hE : fs.readFile (sh.cwd ++ [t ++ ".txt"]) = some s)
    (hnd : fs.isDir (sh.cwd ++ [t ++ ".txt"]) = false)
    (hN : pyInt na = some N) :
    (1 ≤ N → N ≤ ((readlines s).length : Int) →
      safeUnchecked ((readlines s).getD (N - 1).toNat []) = true →
      ((run_command (run_command sh fs ["check", t, na]).2.2
          (run_command sh fs ["check", t, na]).2.1
          ["check", t, na]).2.1).readFile
        (sh.cwd ++ [t ++ ".txt"]) = some s) ∧
    (1 ≤ N → N ≤ ((readlines s).length : Int) →
      containsSub uncheckedPat ((readlines s).getD (N - 1).toNat []) = false →
      containsSub checkedPat ((readlines s).getD (N - 1).toNat []) = true →
      ((run_command (run_command sh fs ["check", t, na]).2.2
          (run_command sh fs ["check", t, na]).2.1
          ["check", t, na]).2.1).readFile
        (sh.cwd ++ [t ++ ".txt"]) = some s) ∧
    (1 ≤ N → N ≤ ((readlines s).length : Int) →
      hasMarker ((readlines s).getD (N - 1).toNat []) = false →
      run_command sh fs ["check", t, na] = (notTodoMsg N, fs, sh) ∧
      run_command (run_command sh fs ["check", t, na]).2.2
          (run_command sh fs ["check", t, na]).2.1 ["check", t, na]
        = (notTodoMsg N, fs, sh)) ∧
    ((N < 1 ∨ N > ((readlines s).length : Int)) →
      run_command sh fs ["check", t, na]
        = (outOfRangeMsg N (readlines s).length, fs, sh) ∧
      run_command (run_command sh fs ["check", t, na]).2.2
          (run_command sh fs ["check", t, na]).2.1 ["check", t, na]
        = (outOfRangeMsg N (readlines s).length, fs, sh)) := by
  have hparse : parseAll [na] = some [N] := by simp [parseAll, hN]
  have e0 : ∀ (sh2 : Shell) (fs2 : FS), run_command sh2 fs2 ["check", t, na]
      = ((checkCmd sh2 fs2 [t, na]).1, (checkCmd sh2 fs2 [t, na]).2, sh2) :=
    fun _ _ => rfl
  refine ⟨?_, ?_, ?_, ?_⟩
  · intro hin1 hin2 hg
    obtain ⟨hu, hnu2, hx2, hres⟩ := toggle_unchecked_restores hg
    have htl1 : toggleLine ((readlines s).getD (N - 1).toNat [])
        = some (replaceFirst uncheckedPat checkedPat
            ((readlines s).getD (N - 1).toNat []), true) := by
      rw [toggleLine, if_pos hu]
    have htl2 : toggleLine (replaceFirst uncheckedPat checkedPat
          ((readlines s).getD (N - 1).toNat []))
        = some ((readlines s).getD (N - 1).toNat [], false) := by
      rw [toggleLine, if_neg (by simp only [hnu2]; decide), if_pos hx2, hres]
    exact check_single_restore sh fs t na N s _ true false
      h1 h2 hE hnd hN hin1 hin2 htl1 htl2
  · intro hin1 hin2 hu hx
    obtain ⟨hu2, hres⟩ := toggle_checked_restores hu hx
    have htl1 : toggleLine ((readlines s).getD (N - 1).toNat [])
        = some (replaceFirst checkedPat uncheckedPat
            ((readlines s).getD (N - 1).toNat []), false) := by
      rw [toggleLine, if_neg (by simp only [hu]; decide), if_pos hx]
    have htl2 : toggleLine (replaceFirst checkedPat uncheckedPat
          ((readlines s).getD (N - 1).toNat []))
        = some ((readlines s).getD (N - 1).toNat [], true) := by
      rw [toggleLine, if_pos hu2, hres]
    exact check_single_restore sh fs t na N s _ false true
      h1 h2 hE hnd hN hin1 hin2 htl1 htl2
  · intro hin1 hin2 hm
    have hout : (decide (N < 1) || decide (N > ((readlines s).length : Int)))
        = false := by
      simp only [Bool.or_eq_false_iff, decide_eq_false_iff_not]
      omega
    rw [hasMarker, Bool.or_eq_false_iff] at hm
    have hstep : checkStep (readlines s, [], false) N
        = (readlines s, [notTodoMsg N], false) :=
      checkStep_none hout (toggleLine_none hm.1 hm.2)
    have heval1 := checkCmd_eval h1 h2 hE (by simp) hparse
    rw [show ([N].foldl checkStep (readlines s, ([] : List String), false))
        = checkStep (readlines s, [], false) N from rfl, hstep] at heval1
    dsimp only at heval1
    rw [if_neg (by decide)] at heval1
    have hfirst : run_command sh fs ["check", t, na]
        = (notTodoMsg N, fs, sh) := by
      rw [e0 sh fs, heval1]
      rfl
    refine ⟨hfirst, ?_⟩
    rw [hfirst]
    exact hfirst
  · intro hor
    have hout : (decide (N < 1) || decide (N > ((readlines s).length : Int)))
        = true := by
      simp only [Bool.or_eq_true, decide_eq_true_eq]
      omega
    have hstep : checkStep (readlines s, [], false) N
        = (readlines s, [outOfRangeMsg N (readlines s).length], false) :=
      checkStep_out hout
    have heval1 := checkCmd_eval h1 h2 hE (by simp) hparse
    rw [show ([N].foldl checkStep (readlines s, ([] : List String), false))
        = checkStep (readlines s, [], false) N from rfl, hstep] at heval1
    dsimp only at heval1
    rw [if_neg (by decide)] at heval1
    have hfirst : run_command sh fs ["check", t, na]
        = (outOfRangeMsg N (readlines s).length, fs, sh) := by
      rw [e0 sh fs, heval1]
      rfl
    refine ⟨hfirst, ?_⟩
    rw [hfirst]
    exact hfirst

/-- C4 is refuted as stated: the note `todo` holds the single marker-bearing
line `[x] a [ ]`, yet `check todo 1` twice yields `[ ] a [x]`, not the
original line — the first call toggles the unchecked marker at position 6,
the second call toggles the checked marker at position 0. -/
theorem C4_counterexample :
    ((run_command (run_command demoShell fsTodo ["check", "todo", "1"]).2.2
        (run_command demoShell fsTodo ["check", "todo", "1"]).2.1
        ["check", "todo", "1"]).2.1).readFile
      ["home", "notes", "todo.txt"] = some "[ ] a [x]".data ∧
    "[ ] a [x]".data ≠ "[x] a [ ]".data := by
  decide

/-- C4 witness: the safe unchecked line `[ ] milk\n` of `milk.txt` really is
restored by checking line 1 twice. -/
theorem C4_check_twice_witness :
    ((run_command (run_command demoShell fsMilk ["check", "milk", "1"]).2.2
        (run_command demoShell fsMilk ["check", "milk", "1"]).2.1
        ["check", "milk", "1"]).2.1).readFile
      ["home", "notes", "milk.txt"] = some "[ ] milk\n".data := by
  have h := C4_check_twice demoShell fsMilk "milk" "1" 1 "[ ] milk\n".data
    (by decide) (by decide) (by decide) (by decide) (by decide)
  exact h.1 (by decide) (by decide) (by decide)
